import Mathlib

/-!
Verification development for the Mendax SQL dummy-data pipeline.

The definitions below are a shallow embedding of the Python sources:
  * `core/utils/parser.py`            — SQL CREATE TABLE extraction
  * `core/utils/graph/dependency_graph.py` — dependency graph and insertion order
  * `core/utils/generators/*.py`      — field/data generation
  * `core/utils/exporters/sql_exporter.py` — INSERT rendering

Library calls are modelled by their documented semantics:
  * regular-expression patterns are hand-compiled to deterministic
    character-list matchers (each matcher is headed by the pattern it embeds);
  * `networkx.topological_sort` is Kahn's algorithm over the built edge set,
    `networkx.simple_cycles` contributes exactly the nodes lying on some cycle;
  * the process-global `random` module and the shared `Faker` generator are
    modelled as explicit tapes of pending draws threaded through the state
    `GState`; a Faker method call consumes one draw and yields an opaque
    tagged value `Value.fake method n`.
-/

/-! ### Character and string helpers -/

/-- The single-quote character (written via its code point). -/
def sqChar : Char := Char.ofNat 39

/-- The double-quote character. -/
def dqChar : Char := Char.ofNat 34

/-- The backquote character used as an SQL identifier delimiter. -/
def bqChar : Char := Char.ofNat 96

/-- Python `\w`: letters, digits and underscore. -/
def isWordChar (c : Char) : Bool := c.isAlphanum || c = '_'

/-- Exact-case prefix test on character lists (Python `str.startswith`). -/
def leadsChars : List Char → List Char → Bool
  | [], _ => true
  | _ :: _, [] => false
  | k :: ks, c :: cs => k = c && leadsChars ks cs

/-- Exact-case prefix test on strings. -/
def leadsW (pre s : String) : Bool := leadsChars pre.data s.data

/-- Substring test on character lists (Python `needle in hay`). -/
def hasSub (needle : List Char) : List Char → Bool
  | [] => leadsChars needle []
  | c :: t => leadsChars needle (c :: t) || hasSub needle t

/-- Substring test on strings. -/
def containsS (needle s : String) : Bool := hasSub needle.data s.data

/-- Uppercase a string character by character (Python `str.upper` on ASCII). -/
def strUpper (s : String) : String := ⟨s.data.map Char.toUpper⟩

/-- Lowercase a string character by character (Python `str.lower` on ASCII). -/
def strLower (s : String) : String := ⟨s.data.map Char.toLower⟩

/-- Drop leading whitespace from a character list. -/
def dropWS (l : List Char) : List Char := l.dropWhile (·.isWhitespace)

/-- Trim whitespace from both ends of a character list (Python `str.strip`). -/
def trimChars (l : List Char) : List Char := ((dropWS l).reverse.dropWhile (·.isWhitespace)).reverse

/-- Trim whitespace from both ends of a string. -/
def trimS (s : String) : String := ⟨trimChars s.data⟩

/-- Strip a given character from both ends (Python `str.strip('c')`). -/
def stripEndsChar (c : Char) (l : List Char) : List Char :=
  ((l.dropWhile (· = c)).reverse.dropWhile (· = c)).reverse

/-- The `.strip('`').strip('"').strip("'")` chain applied to extracted identifiers. -/
def stripDelims (l : List Char) : List Char :=
  stripEndsChar sqChar (stripEndsChar dqChar (stripEndsChar bqChar l))

/-- Python `', '.join`. -/
def joinCommaSpace : List String → String
  | [] => ""
  | [s] => s
  | s :: r => s ++ ", " ++ joinCommaSpace r

/-- Association-list lookup with propositional key equality. -/
def alookup {α : Type} : List (String × α) → String → Option α
  | [], _ => none
  | (k, v) :: r, key => if k = key then some v else alookup r key

/-- Python-dict insertion: overwrite an existing key in place, else append.
Mirrors `d[k] = v` on a dict that preserves insertion order. -/
def alInsert {α : Type} : List (String × α) → String → α → List (String × α)
  | [], k, v => [(k, v)]
  | (k', v') :: r, k, v => if k' = k then (k, v) :: r else (k', v') :: alInsert r k v

/-- Code-point lexicographic comparison of character lists (Python `<` on str). -/
def charsLt : List Char → List Char → Bool
  | [], [] => false
  | [], _ :: _ => true
  | _ :: _, [] => false
  | a :: as₀, b :: bs => if a.val < b.val then true else if b.val < a.val then false else charsLt as₀ bs

/-- Python `<=` on strings. -/
def strLeB (a b : String) : Bool := a = b || charsLt a.data b.data

/-- Insert into a sorted list (helper for `pySorted`). -/
def insSorted (x : String) : List String → List String
  | [] => [x]
  | y :: r => if strLeB x y then x :: y :: r else y :: insSorted x r

/-- Python `sorted` on a list of strings (insertion sort, code-point order). -/
def pySorted (l : List String) : List String := l.foldr insSorted []

/-! ### Parser data model (`core/utils/parser.py`) -/

/-- One foreign-key record: `{'ref_table': ..., 'ref_column': ...}`. -/
structure FKInfo where
  ref_table : String
  ref_column : String
deriving DecidableEq, Repr

/-- Per-table schema info: `{'columns': ..., 'primary_key': ..., 'foreign_keys': ...}`. -/
structure TableInfo where
  columns : List (String × String)
  primary_key : Option String
  foreign_keys : List (String × FKInfo)
deriving DecidableEq, Repr

/-- The empty table entry created for each `CREATE TABLE` statement. -/
def emptyTableInfo : TableInfo := ⟨[], none, []⟩

/-- A schema map: table name → table info, in declaration order. -/
abbrev Schema := List (String × TableInfo)

/-! ### Regex matchers, hand-compiled

`scan f cs` tries `f` at every suffix of `cs`, leftmost first: this is
`re.search` for a deterministic matcher `f`. -/

/-- Leftmost-match search combinator (models `re.search`). -/
def scan {α : Type} (f : List Char → Option α) : List Char → Option α
  | [] => f []
  | c :: t =>
    match f (c :: t) with
    | some r => some r
    | none => scan f t

/-- Case-insensitive literal keyword match, returning the rest of the input. -/
def chompCI : List Char → List Char → Option (List Char)
  | [], cs => some cs
  | _ :: _, [] => none
  | k :: ks, c :: cs => if c.toUpper = k.toUpper then chompCI ks cs else none

/-- `\s+` (greedy): requires at least one whitespace character. -/
def ws1 : List Char → Option (List Char)
  | [] => none
  | c :: rest => if c.isWhitespace then some (dropWS rest) else none

/-- `\s*` (greedy). -/
def ws0 (cs : List Char) : List Char := dropWS cs

/-- Expect one specific character. -/
def expectChar (c : Char) : List Char → Option (List Char)
  | [] => none
  | d :: rest => if d = c then some rest else none

/-- `[`"]?` — consume one optional identifier delimiter. -/
def optDelim (cs : List Char) : List Char :=
  match cs with
  | [] => []
  | c :: rest => if c = bqChar || c = dqChar then rest else cs

/-- `(\w+)` (greedy, at least one character): captured word and rest. -/
def wordChars (cs : List Char) : Option (List Char × List Char) :=
  let w := cs.takeWhile isWordChar
  if w.isEmpty then none else some (w, cs.dropWhile isWordChar)

/-- `([A-Za-z]+)` (greedy, at least one letter). -/
def alphaChars (cs : List Char) : Option (List Char × List Char) :=
  let w := cs.takeWhile Char.isAlpha
  if w.isEmpty then none else some (w, cs.dropWhile Char.isAlpha)

/-- `(\d+)` parsed as a number. -/
def digitChars (cs : List Char) : Option (Nat × List Char) :=
  let w := cs.takeWhile Char.isDigit
  if w.isEmpty then none
  else some (w.foldl (fun acc c => acc * 10 + (c.toNat - 48)) 0, cs.dropWhile Char.isDigit)

/-- Matcher for `PRIMARY\s+KEY\s*\([`"]?(\w+)[`"]?\)` at one position. -/
def pkParenAt (cs : List Char) : Option (List Char) := do
  let cs ← chompCI "PRIMARY".data cs
  let cs ← ws1 cs
  let cs ← chompCI "KEY".data cs
  let cs := ws0 cs
  let cs ← expectChar '(' cs
  let cs := optDelim cs
  let (w, cs) ← wordChars cs
  let cs := optDelim cs
  let _ ← expectChar ')' cs
  pure w

/-- Matcher for the fallback `PRIMARY\s+KEY\s+[`"]?(\w+)` at one position. -/
def pkBareAt (cs : List Char) : Option (List Char) := do
  let cs ← chompCI "PRIMARY".data cs
  let cs ← ws1 cs
  let cs ← chompCI "KEY".data cs
  let cs ← ws1 cs
  let cs := optDelim cs
  let (w, _) ← wordChars cs
  pure w

/-- `_extract_primary_key_column`: parenthesised form first, then the bare fallback. -/
def extractPrimaryKeyColumn (part : String) : Option String :=
  match scan pkParenAt part.data with
  | some w => some ⟨stripDelims w⟩
  | none =>
    match scan pkBareAt part.data with
    | some w => some ⟨stripDelims w⟩
    | none => none

/-- Matcher for `\bPRIMARY\s+KEY\b` at one position, returning the rest after `KEY`. -/
def inlinePkAt (cs : List Char) : Option (List Char) := do
  let cs ← chompCI "PRIMARY".data cs
  let cs ← ws1 cs
  let cs ← chompCI "KEY".data cs
  pure cs

/-- Whether the previous character (if any) allows a `\b` word boundary. -/
def boundaryBefore : Option Char → Bool
  | none => true
  | some c => !isWordChar c

/-- Whether the rest of the input allows a closing `\b` word boundary. -/
def boundaryAfter : List Char → Bool
  | [] => true
  | c :: _ => !isWordChar c

/-- Search for `\bPRIMARY\s+KEY\b` (case-insensitive), tracking the previous character. -/
def hasInlinePkGo : Option Char → List Char → Bool
  | _, [] => false
  | prev, c :: t =>
    (boundaryBefore prev &&
      (match inlinePkAt (c :: t) with
       | some rest => boundaryAfter rest
       | none => false)) ||
    hasInlinePkGo (some c) t

/-- `re.search(r'\bPRIMARY\s+KEY\b', part, re.IGNORECASE)` as a Boolean. -/
def hasInlinePk (cs : List Char) : Bool := hasInlinePkGo none cs

/-- The recognised SQL type vocabulary (`VALID_SQL_TYPES`). -/
def validSqlTypes : List String :=
  ["INT", "INTEGER", "TINYINT", "SMALLINT", "MEDIUMINT", "BIGINT",
   "DECIMAL", "NUMERIC", "FLOAT", "DOUBLE", "REAL",
   "CHAR", "VARCHAR", "TEXT", "TINYTEXT", "MEDIUMTEXT", "LONGTEXT",
   "BINARY", "VARBINARY", "BLOB", "TINYBLOB", "MEDIUMBLOB", "LONGBLOB",
   "DATE", "TIME", "DATETIME", "TIMESTAMP", "YEAR",
   "BOOLEAN", "BOOL", "BIT", "JSON", "UUID"]

/-- `_is_valid_sql_type`: leading letters, uppercased, must be in the vocabulary. -/
def isValidSqlType (typeStr : String) : Bool :=
  match alphaChars typeStr.data with
  | some (base, _) => validSqlTypes.contains (strUpper ⟨base⟩)
  | none => false

/-- The constraint keyword list of `_is_constraint_or_keyword`, in source order. -/
def constraintKeywords : List String :=
  ["PRIMARY KEY", "FOREIGN KEY", "CONSTRAINT", "KEY", "UNIQUE KEY",
   "UNIQUE", "INDEX", "CHECK", "FULLTEXT", "SPATIAL"]

/-- `_is_constraint_or_keyword` on the already-uppercased clause. -/
def isConstraintOrKeyword (pu : String) : Bool :=
  constraintKeywords.any (fun k => leadsW k pu)

/-- `_looks_like_column`: `^[`"]?\w+[`"]?\s+[A-Za-z]+`. -/
def looksLikeColumn (part : String) : Bool :=
  (do
    let cs := optDelim part.data
    let (_, cs) ← wordChars cs
    let cs := optDelim cs
    let cs ← ws1 cs
    let _ ← alphaChars cs
    pure ()).isSome

/-- Optional `\s*\([^)]*\)` after the base type letters: parameter text, verbatim. -/
def typeParams (cs : List Char) : Option (List Char) :=
  match ws0 cs with
  | '(' :: rest =>
    let inner := rest.takeWhile (fun c => ¬ (c = ')'))
    match rest.dropWhile (fun c => ¬ (c = ')')) with
    | [] => none
    | _ :: _ => some inner
  | _ => none

/-- `_extract_column_definition`: name, canonical uppercase type, inline-PK flag.
Combines the clause regex `^[`"]?(\w+)[`"]?\s+([A-Za-z]+(?:\s*\([^)]*\))?)` with
the follow-up `^([A-Za-z]+)\s*(\([^)]*\))?` that rebuilds `base + params`. -/
def extractColumnDefinition (part : String) : Option (String × String × Bool) :=
  let pc := trimS part
  if isConstraintOrKeyword (strUpper pc) then none
  else
    let isPrimary := hasInlinePk pc.data
    (do
      let cs := optDelim pc.data
      let (name, cs) ← wordChars cs
      let cs := optDelim cs
      let cs ← ws1 cs
      let (letters, cs) ← alphaChars cs
      let colType :=
        match typeParams cs with
        | some inner => strUpper ⟨letters ++ '(' :: inner ++ [')']⟩
        | none => strUpper ⟨letters⟩
      pure ((⟨stripDelims name⟩ : String), colType, isPrimary))

/-- Matcher for
`FOREIGN\s+KEY\s*\([`"]?(\w+)[`"]?\)\s+REFERENCES\s+[`"]?(\w+)[`"]?\s*\([`"]?(\w+)[`"]?\)`
at one position. -/
def fkP1At (cs : List Char) : Option (List Char × List Char × List Char) := do
  let cs ← chompCI "FOREIGN".data cs
  let cs ← ws1 cs
  let cs ← chompCI "KEY".data cs
  let cs := ws0 cs
  let cs ← expectChar '(' cs
  let cs := optDelim cs
  let (localCol, cs) ← wordChars cs
  let cs := optDelim cs
  let cs ← expectChar ')' cs
  let cs ← ws1 cs
  let cs ← chompCI "REFERENCES".data cs
  let cs ← ws1 cs
  let cs := optDelim cs
  let (refTable, cs) ← wordChars cs
  let cs := optDelim cs
  let cs := ws0 cs
  let cs ← expectChar '(' cs
  let cs := optDelim cs
  let (refCol, cs) ← wordChars cs
  let cs := optDelim cs
  let _ ← expectChar ')' cs
  pure (localCol, refTable, refCol)

/-- Matcher for the bare form
`^[`"]?(\w+)[`"]?\s+REFERENCES\s+[`"]?(\w+)[`"]?\s*\([`"]?(\w+)[`"]?\)` (anchored). -/
def fkP3At (cs : List Char) : Option (List Char × List Char × List Char) := do
  let cs := optDelim cs
  let (localCol, cs) ← wordChars cs
  let cs := optDelim cs
  let cs ← ws1 cs
  let cs ← chompCI "REFERENCES".data cs
  let cs ← ws1 cs
  let cs := optDelim cs
  let (refTable, cs) ← wordChars cs
  let cs := optDelim cs
  let cs := ws0 cs
  let cs ← expectChar '(' cs
  let cs := optDelim cs
  let (refCol, cs) ← wordChars cs
  let cs := optDelim cs
  let _ ← expectChar ')' cs
  pure (localCol, refTable, refCol)

/-- `_extract_foreign_key`: searched full form first, then the anchored bare form. -/
def extractForeignKey (part : String) : Option (String × String × String) :=
  match scan fkP1At part.data with
  | some (l, t, c) => some (⟨stripDelims l⟩, ⟨stripDelims t⟩, ⟨stripDelims c⟩)
  | none =>
    match fkP3At part.data with
    | some (l, t, c) => some (⟨stripDelims l⟩, ⟨stripDelims t⟩, ⟨stripDelims c⟩)
    | none => none

/-- `_smart_split`: split on top-level commas, tracking parenthesis depth.
The accumulator holds the current piece reversed; depth is an integer, as in
Python, so an unbalanced `)` drives it negative rather than clamping. -/
def smartSplitGo : List Char → List Char → Int → List String
  | [], cur, _ =>
    if (trimChars cur.reverse).isEmpty then [] else [⟨trimChars cur.reverse⟩]
  | c :: t, cur, depth =>
    if c = '(' then smartSplitGo t (c :: cur) (depth + 1)
    else if c = ')' then smartSplitGo t (c :: cur) (depth - 1)
    else if c = ',' ∧ depth = 0 then
      (if (trimChars cur.reverse).isEmpty then [] else [(⟨trimChars cur.reverse⟩ : String)]) ++
        smartSplitGo t [] 0
    else smartSplitGo t (c :: cur) depth

/-- `_smart_split` on a string. -/
def smartSplit (text : String) : List String := smartSplitGo text.data [] 0

/-- One iteration of the clause loop in `_parse_table_definition`. -/
def processClause (info : TableInfo) (rawPart : String) : TableInfo :=
  let part := trimS rawPart
  if part.data.isEmpty then info
  else
    let pu := trimS (strUpper part)
    if isConstraintOrKeyword pu then
      if leadsW "PRIMARY KEY" pu then
        match extractPrimaryKeyColumn part with
        | some c => { info with primary_key := some c }
        | none => info
      else if leadsW "FOREIGN KEY" pu ||
              (leadsW "CONSTRAINT" pu && containsS "FOREIGN KEY" pu) ||
              (containsS "REFERENCES" pu && !looksLikeColumn part) then
        match extractForeignKey part with
        | some (lc, rt, rc) =>
          { info with foreign_keys := alInsert info.foreign_keys lc ⟨rt, rc⟩ }
        | none => info
      else info
    else
      match extractColumnDefinition part with
      | some (n, ty, isPk) =>
        if isValidSqlType ty then
          let info₁ := { info with columns := alInsert info.columns n ty }
          if isPk ∧ info₁.primary_key = none then { info₁ with primary_key := some n }
          else info₁
        else info
      | none => info

/-- Body extraction of `CREATE\s+TABLE\s+[^(]+\(([\s\S]*)\)` at one position:
at least one non-`(` character after the keywords, then the content between the
first `(` and the last `)`. -/
def createBodyAt (cs : List Char) : Option (List Char) := do
  let cs ← chompCI "CREATE".data cs
  let cs ← ws1 cs
  let cs ← chompCI "TABLE".data cs
  let cs ← ws1 cs
  match cs with
  | [] => none
  | c :: _ =>
    if c = '(' then none
    else
      match cs.dropWhile (fun d => ¬ (d = '(')) with
      | [] => none
      | _ :: afterParen =>
        match afterParen.reverse.dropWhile (fun d => ¬ (d = ')')) with
        | [] => none
        | _ :: revBody => some revBody.reverse

/-- `_parse_table_definition`: extract the parenthesised body, smart-split it,
and fold the clause handler over the pieces. -/
def parseTableDefinition (stmt : String) (info : TableInfo) : TableInfo :=
  match scan createBodyAt stmt.data with
  | none => info
  | some body =>
    let body := trimChars body
    if body.isEmpty then info
    else (smartSplitGo body [] 0).foldl processClause info

/-- The statement filter `^\s*CREATE\s+TABLE\s+`. -/
def startsWithCreateTable (stmt : String) : Bool :=
  (do
    let cs := ws0 stmt.data
    let cs ← chompCI "CREATE".data cs
    let cs ← ws1 cs
    let cs ← chompCI "TABLE".data cs
    let _ ← ws1 cs
    pure ()).isSome

/-- Matcher for `CREATE\s+TABLE\s+[`"]?(\w+)` at one position. -/
def tableNameAt (cs : List Char) : Option (List Char) := do
  let cs ← chompCI "CREATE".data cs
  let cs ← ws1 cs
  let cs ← chompCI "TABLE".data cs
  let cs ← ws1 cs
  let cs := optDelim cs
  let (w, _) ← wordChars cs
  pure w

/-- `_extract_table_name` (the captured `\w+` group, no strip chain). -/
def extractTableName (stmt : String) : Option String :=
  match scan tableNameAt stmt.data with
  | some w => some ⟨w⟩
  | none => none

/-- Split the input on semicolons (statement separation of `sqlparse.parse`). -/
def splitStatementsGo : List Char → List Char → List String
  | [], cur => [⟨cur.reverse⟩]
  | c :: t, cur => if c = ';' then ⟨cur.reverse⟩ :: splitStatementsGo t [] else splitStatementsGo t (c :: cur)

/-- Statement list of the raw input. -/
def splitStatements (sql : String) : List String := splitStatementsGo sql.data []

/-- `parse_sql_schema`: keep `CREATE TABLE` statements, extract the table name,
initialise an empty entry and fill it via `_parse_table_definition`.
Duplicate table names overwrite in place, as for a Python dict. -/
def parseSqlSchema (sql : String) : Schema :=
  (splitStatements sql).foldl
    (fun result stmt =>
      let s := trimS stmt
      if startsWithCreateTable s then
        match extractTableName s with
        | some name => alInsert result name (parseTableDefinition s emptyTableInfo)
        | none => result
      else result)
    []

/-! ### Dependency graph (`core/utils/graph/dependency_graph.py`) -/

/-- The node list of the graph: all table names, in schema order. -/
def schemaKeys (tables : Schema) : List String := tables.map Prod.fst

/-- Edge construction of `_build_graph`: for each foreign key whose (truthy)
referenced table is a key of the schema map, an edge `ref_table → table`.
`networkx.DiGraph` stores each edge once, hence the `dedup`. -/
def buildEdges (tables : Schema) : List (String × String) :=
  (tables.flatMap (fun ti =>
    ti.2.foreign_keys.filterMap (fun cf =>
      if ¬ (cf.2.ref_table = "") ∧ cf.2.ref_table ∈ schemaKeys tables then
        some (cf.2.ref_table, ti.1)
      else none))).dedup

/-- A node has no incoming edge from the remaining node set. -/
def noIncoming (E : List (String × String)) (rem : List String) (n : String) : Bool :=
  !(E.any (fun e => e.2 = n && rem.contains e.1))

/-- Kahn's algorithm (the semantics of `networkx.topological_sort`): repeatedly
emit a remaining node without incoming edges from the remaining set; `none`
when stuck on a nonempty remainder (a cycle). Fuel is the node count. -/
def kahnAux (E : List (String × String)) : Nat → List String → Option (List String)
  | 0, rem => if rem.isEmpty then some [] else none
  | fuel + 1, rem =>
    match rem.find? (fun n => noIncoming E rem n) with
    | none => if rem.isEmpty then some [] else none
    | some n => (kahnAux E fuel (rem.erase n)).map (n :: ·)

/-- Bounded reachability along edges: `reachesB E f a b` is true when a path of
at most `f` edges leads from `a` to `b`. -/
def reachesB (E : List (String × String)) : Nat → String → String → Bool
  | 0, _, _ => false
  | f + 1, a, b => E.any (fun e => e.1 = a && (e.2 = b || reachesB E f e.2 b))

/-- Fuel sufficient for any duplicate-free path: the number of distinct edge targets. -/
def cycleFuel (E : List (String × String)) : Nat := (E.map Prod.snd).dedup.length

/-- A node lies on some cycle (the nodes contributed by `networkx.simple_cycles`). -/
def onCycleB (E : List (String × String)) (n : String) : Bool :=
  reachesB E (cycleFuel E) n n

/-- `CircularDependencyError` with its table list and message. -/
structure CircularDependencyError where
  tables : List String
  message : String
deriving DecidableEq, Repr

/-- Constructor with the default message built from the sorted table list. -/
def CircularDependencyError.ofTables (ts : List String) : CircularDependencyError :=
  ⟨ts, "Circular dependency detected involving tables: " ++ joinCommaSpace (pySorted ts)⟩

/-- `get_insertion_order`: topological sort, or a `CircularDependencyError`
carrying the sorted deduplicated set of all tables on some cycle (the fallback
branch mirrors the source's defensive `else`). -/
def getInsertionOrder (tables : Schema) : Except CircularDependencyError (List String) :=
  let nodes := schemaKeys tables
  let E := buildEdges tables
  match kahnAux E nodes.length nodes with
  | some order => .ok order
  | none =>
    let involved := (nodes.filter (fun n => onCycleB E n)).dedup
    if involved.isEmpty then
      .error ⟨nodes, "Circular dependency detected in table foreign keys"⟩
    else .error (.ofTables (pySorted involved))

/-- `has_cycles`: the topological sort fails. -/
def hasCycles (tables : Schema) : Bool :=
  match kahnAux (buildEdges tables) (schemaKeys tables).length (schemaKeys tables) with
  | some _ => false
  | none => true

/-- `get_dependencies`: predecessors of a node, `[]` for a name not in the graph. -/
def getDependencies (tables : Schema) (t : String) : List String :=
  if t ∈ schemaKeys tables then
    ((buildEdges tables).filter (fun e => e.2 = t)).map Prod.fst
  else []

/-- `get_dependents`: successors of a node, `[]` for a name not in the graph. -/
def getDependents (tables : Schema) (t : String) : List String :=
  if t ∈ schemaKeys tables then
    ((buildEdges tables).filter (fun e => e.1 = t)).map Prod.snd
  else []

/-! ### Generators (`core/utils/generators/*.py`) -/

/-- A generated cell value. `fake method n` is the opaque result of the `n`-th
pending draw of a Faker call of the given method. -/
inductive Value where
  | null
  | bool (b : Bool)
  | int (i : Int)
  | float (q : Rat)
  | datetime (y mo d h mi s : Nat)
  | str (s : String)
  | fake (method : String) (n : Nat)
deriving DecidableEq, Repr

/-- The process-global randomness at one instant: the pending draws of the
`random` module and of the shared `Faker` generator.  Neither tape is derived
from `GeneratorConfig.seed`: `Faker.seed` is a class-level call made once at
config construction, and the `random` module is never seeded by this code. -/
structure GState where
  rand : List Nat
  faker : List Nat
deriving DecidableEq, Repr

/-- Consume one draw from the `random` module tape. -/
def randDraw (gs : GState) : Nat × GState :=
  match gs.rand with
  | [] => (0, gs)
  | n :: r => (n, { gs with rand := r })

/-- Consume one draw from the Faker tape. -/
def fakerDraw (gs : GState) : Nat × GState :=
  match gs.faker with
  | [] => (0, gs)
  | n :: r => (n, { gs with faker := r })

/-- `random.random()`: a rational in `[0, 1)` with 53 bits of resolution. -/
def randomFloat (gs : GState) : Rat × GState :=
  let (n, gs') := randDraw gs
  (mkRat ((n % 2 ^ 53 : Nat) : Int) (2 ^ 53), gs')

/-- `random.choice(pool)`: a uniformly drawn element of the (nonempty) pool. -/
def randomChoice (pool : List Value) (gs : GState) : Value × GState :=
  let (n, gs') := randDraw gs
  (pool.getD (n % pool.length) Value.null, gs')

/-- One Faker method call: consumes one Faker draw, yields an opaque value. -/
def fakerCall (method : String) (gs : GState) : Value × GState :=
  let (n, gs') := fakerDraw gs
  (Value.fake method n, gs')

/-- `GeneratorConfig` (the `faker` field is the shared generator, kept in `GState`). -/
structure GeneratorConfig where
  locale : String := "en_US"
  seed : Option Int := none
  nullable_fk_probability : Rat := mkRat 3 10
deriving DecidableEq, Repr

/-- The `__post_init__` validation of `nullable_fk_probability`. -/
def GeneratorConfig.postInitOk (c : GeneratorConfig) : Bool :=
  decide (0 ≤ c.nullable_fk_probability ∧ c.nullable_fk_probability ≤ 1)

/-- Fuelled worker for `stripParens`: the fuel (at least the list length)
makes the recursion structural, so the kernel can evaluate it. -/
def stripParensFuel : Nat → List Char → List Char
  | 0, l => l
  | _, [] => []
  | f + 1, c :: t =>
    if c = '(' then
      match t.dropWhile (fun d => ¬ (d = ')')) with
      | [] => c :: t
      | _ :: r => stripParensFuel f r
    else c :: stripParensFuel f t

/-- `re.sub(r'\([^)]*\)', '', ...)`: delete every parenthesised segment. -/
def stripParensGo (l : List Char) : List Char := stripParensFuel l.length l

/-- The `base_type` computation used throughout `field_generators.py`:
uppercase, strip parameter lists, strip whitespace. -/
def baseTypeOf (colType : String) : String :=
  trimS ⟨stripParensGo (strUpper colType).data⟩

/-- The integer type family shared by the primary-key and integer generators. -/
def intFamily : List String := ["INT", "INTEGER", "BIGINT", "SMALLINT", "TINYINT", "MEDIUMINT"]

/-- `PrimaryKeyGenerator.generate`. -/
def primaryKeyGenerate (isPk : Bool) (colType : String) (recordNum : Nat) (gs : GState) :
    Value × GState :=
  if !isPk then (Value.null, gs)
  else
    let bt := baseTypeOf colType
    if intFamily.contains bt then (Value.int ((recordNum : Int) + 1), gs)
    else if ["VARCHAR", "CHAR", "TEXT"].contains bt then fakerCall "uuid4" gs
    else (Value.int ((recordNum : Int) + 1), gs)

/-- The keyword list of `SmartFieldGenerator.can_handle`. -/
def smartKeywords : List String :=
  ["email", "username", "name", "phone", "url", "address",
   "city", "country", "password", "hash", "created_at", "updated_at",
   "date", "time", "description", "content", "text", "title",
   "slug", "code"]

/-- `SmartFieldGenerator.can_handle`: any keyword occurs in the lowercased name. -/
def smartCanHandle (colName : String) : Bool :=
  smartKeywords.any (fun k => containsS k (strLower colName))

/-- `SmartFieldGenerator.generate`: the name-pattern chain; the final `none`
models its `return None  # Fallback to type-based generator`. -/
def smartGenerate (colName : String) (gs : GState) : Value × GState :=
  let n := strLower colName
  if containsS "email" n then fakerCall "email" gs
  else if containsS "username" n then fakerCall "user_name" gs
  else if containsS "name" n && !containsS "user" n then fakerCall "name" gs
  else if containsS "phone" n then fakerCall "phone_number" gs
  else if containsS "url" n || containsS "link" n then fakerCall "url" gs
  else if containsS "address" n then fakerCall "address" gs
  else if containsS "city" n && !containsS "id" n then fakerCall "city" gs
  else if containsS "country" n && !containsS "id" n then fakerCall "country" gs
  else if containsS "password" n || containsS "hash" n then fakerCall "password" gs
  else if containsS "created_at" n || containsS "updated_at" n then
    fakerCall "date_time_between" gs
  else if containsS "date" n && !containsS "id" n then fakerCall "date" gs
  else if containsS "time" n && !containsS "id" n then fakerCall "time" gs
  else if containsS "description" n || containsS "content" n || containsS "text" n then
    fakerCall "text" gs
  else if containsS "title" n then fakerCall "sentence" gs
  else if containsS "slug" n then fakerCall "slug" gs
  else if containsS "code" n && !containsS "id" n then fakerCall "country_code" gs
  else (Value.null, gs)

/-- `IntegerFieldGenerator.generate` (the `'unsigned' in col_type.upper()` test
is embedded verbatim: a lowercase needle against an uppercased haystack). -/
def integerGenerate (colType : String) (gs : GState) : Value × GState :=
  if containsS "unsigned" (strUpper colType) then fakerCall "random_int_unsigned" gs
  else fakerCall "random_int" gs

/-- The `re.search(r'\((\d+)\)', col_type.upper())` length parameter. -/
def parenNumAt (cs : List Char) : Option Nat := do
  let cs ← expectChar '(' cs
  let (n, cs) ← digitChars cs
  let _ ← expectChar ')' cs
  pure n

/-- Declared length/precision parameter of a type string. -/
def typeLengthParam (colType : String) : Option Nat :=
  scan parenNumAt (strUpper colType).data

/-- `DecimalFieldGenerator.generate`. -/
def decimalGenerate (colType : String) (gs : GState) : Value × GState :=
  match typeLengthParam colType with
  | some _ => fakerCall "round_pyfloat" gs
  | none => fakerCall "pyfloat" gs

/-- `StringFieldGenerator.generate`: length-dependent strategy. -/
def stringGenerate (colType : String) (gs : GState) : Value × GState :=
  let bt := baseTypeOf colType
  if ["VARCHAR", "CHAR"].contains bt then
    match typeLengthParam colType with
    | some maxLen =>
      if maxLen ≤ 10 then fakerCall "word_truncated" gs
      else fakerCall "text_stripped" gs
    | none => fakerCall "text_stripped_50" gs
  else fakerCall "text_500" gs

/-- `DateTimeFieldGenerator.generate`. -/
def dateTimeGenerate (colType : String) (gs : GState) : Value × GState :=
  let bt := baseTypeOf colType
  if bt = "DATE" then fakerCall "date" gs
  else if bt = "DATETIME" ∨ bt = "TIMESTAMP" then fakerCall "date_time_between" gs
  else if bt = "TIME" then fakerCall "time" gs
  else if bt = "YEAR" then fakerCall "year" gs
  else fakerCall "date" gs

/-- `BooleanFieldGenerator.generate`. -/
def booleanGenerate (colType : String) (gs : GState) : Value × GState :=
  if baseTypeOf colType = "BIT" then fakerCall "random_int_bit" gs
  else fakerCall "boolean" gs

/-- `FieldGeneratorFactory.generate_value`: primary keys first, then the
strategy chain in construction order, ending at the unconditional default. -/
def generateValue (colName colType : String) (isPk : Bool) (recordNum : Nat) (gs : GState) :
    Value × GState :=
  if isPk then primaryKeyGenerate true colType recordNum gs
  else if smartCanHandle colName then smartGenerate colName gs
  else if intFamily.contains (baseTypeOf colType) then integerGenerate colType gs
  else if ["DECIMAL", "NUMERIC", "FLOAT", "DOUBLE", "REAL"].contains (baseTypeOf colType) then
    decimalGenerate colType gs
  else if ["VARCHAR", "CHAR", "TEXT", "TINYTEXT", "MEDIUMTEXT", "LONGTEXT"].contains
      (baseTypeOf colType) then
    stringGenerate colType gs
  else if ["DATE", "DATETIME", "TIMESTAMP", "TIME", "YEAR"].contains (baseTypeOf colType) then
    dateTimeGenerate colType gs
  else if ["BOOLEAN", "BOOL", "BIT"].contains (baseTypeOf colType) then
    booleanGenerate colType gs
  else if baseTypeOf colType = "JSON" then fakerCall "json" gs
  else if baseTypeOf colType = "UUID" then fakerCall "uuid4" gs
  else fakerCall "word" gs

/-- One generated row: column name → value, in insertion order. -/
abbrev Record := List (String × Value)

/-- The per-record base-column pass of `_generate_table_records`: every column
that is not a foreign key gets a value from the strategy chain. -/
def genCols (pkCol : Option String) (fkKeys : List String) :
    List (String × String) → Nat → GState → Record × GState
  | [], _, gs => ([], gs)
  | (c, ty) :: rest, recordNum, gs =>
    if fkKeys.contains c then genCols pkCol fkKeys rest recordNum gs
    else
      let (v, gs₁) := generateValue c ty (pkCol == some c) recordNum gs
      let (r, gs₂) := genCols pkCol fkKeys rest recordNum gs₁
      ((c, v) :: r, gs₂)

/-- One foreign-key cell of `_generate_table_records`: with probability `p`
the value is null, otherwise a uniform draw from the referenced table's
tracked pool; a missing or empty pool forces null without consuming a draw. -/
def fkValue (p : Rat) (pools : List (String × List Value)) (fk : FKInfo) (gs : GState) :
    Value × GState :=
  match alookup pools fk.ref_table with
  | some pool =>
    if pool.isEmpty then (Value.null, gs)
    else
      let (q, gsa) := randomFloat gs
      if q < p then (Value.null, gsa) else randomChoice pool gsa
  | none => (Value.null, gs)

/-- The per-record foreign-key pass, one `fkValue` per foreign-key column. -/
def genFks (p : Rat) (fks : List (String × FKInfo)) (pools : List (String × List Value)) :
    GState → Record × GState
  | gs =>
    match fks with
    | [] => ([], gs)
    | (c, fk) :: rest =>
      let (v, gs₁) := fkValue p pools fk gs
      let (r, gs₂) := genFks p rest pools gs₁
      ((c, v) :: r, gs₂)

/-- One record: base columns then foreign-key columns. -/
def buildRecord (cfg : GeneratorConfig) (info : TableInfo)
    (pools : List (String × List Value)) (recordNum : Nat) (gs : GState) : Record × GState :=
  let fkKeys := info.foreign_keys.map Prod.fst
  let (base, gs₁) := genCols info.primary_key fkKeys info.columns recordNum gs
  let (fkPart, gs₂) := genFks cfg.nullable_fk_probability info.foreign_keys pools gs₁
  (base ++ fkPart, gs₂)

/-- `for record_num in range(num_records)`: the first argument counts the
records still to produce, the second is the current 0-based record index. -/
def genRecords (cfg : GeneratorConfig) (info : TableInfo)
    (pools : List (String × List Value)) : Nat → Nat → GState → List Record × GState
  | 0, _, gs => ([], gs)
  | n + 1, i, gs =>
    let (r, gs₁) := buildRecord cfg info pools i gs
    let (rs, gs₂) := genRecords cfg info pools n (i + 1) gs₁
    (r :: rs, gs₂)

/-- `_generate_table_records`. -/
def generateTableRecords (cfg : GeneratorConfig) (info : TableInfo) (numRecords : Nat)
    (pools : List (String × List Value)) (gs : GState) : List Record × GState :=
  genRecords cfg info pools numRecords 0 gs

/-- Failures of `DataGenerator.generate`. -/
inductive GenError where
  | invalidSchema (msg : String)
  | circular (e : CircularDependencyError)
  | dataGeneration (table : String)
deriving DecidableEq, Repr

/-- The per-table loop of `DataGenerator.generate`: generate each table's
records in insertion order, then track its primary-key values as the pool for
later tables; a missing table entry or primary-key column becomes a
`DataGenerationError` naming the table. -/
def genLoop (cfg : GeneratorConfig) (schema : Schema) (numRecords : Nat) :
    List String → List (String × List Record) → List (String × List Value) → GState →
    Except GenError (List (String × List Record) × GState)
  | [], data, _, gs => .ok (data, gs)
  | t :: rest, data, pools, gs =>
    match alookup schema t with
    | none => .error (.dataGeneration t)
    | some info =>
      let (recs, gs₁) := generateTableRecords cfg info numRecords pools gs
      match info.primary_key with
      | none => genLoop cfg schema numRecords rest (data ++ [(t, recs)]) pools gs₁
      | some p =>
        match recs.mapM (fun r => alookup r p) with
        | none => .error (.dataGeneration t)
        | some vals =>
          genLoop cfg schema numRecords rest (data ++ [(t, recs)]) (pools ++ [(t, vals)]) gs₁

/-- `DataGenerator.generate`: parse, order, then generate per table.  The
`CircularDependencyError` of `get_insertion_order` is not a `ValueError` and
propagates unchanged. -/
def DataGenerator.generate (cfg : GeneratorConfig) (sql : String) (numRecords : Nat)
    (gs : GState) : Except GenError (List (String × List Record) × GState) :=
  let schema := parseSqlSchema sql
  if schema.isEmpty then
    .error (.invalidSchema "No valid tables found in SQL schema. Please provide valid CREATE TABLE statements.")
  else
    match getInsertionOrder schema with
    | .error e => .error (.circular e)
    | .ok order => genLoop cfg schema numRecords order [] [] gs

/-- The primary-key pools determined by a finished dataset: for each generated
table that declares a primary key, the values of that column across its
records, in record order.  In a successful run this recomputation coincides
with the `primary_keys` dict tracked by `DataGenerator.generate`. -/
def poolsFromData (schema : Schema) (data : List (String × List Record)) :
    List (String × List Value) :=
  data.filterMap (fun tr =>
    match alookup schema tr.1 with
    | none => none
    | some info =>
      match info.primary_key with
      | none => none
      | some p =>
        match tr.2.mapM (fun r => alookup r p) with
        | none => none
        | some vals => some (tr.1, vals))

/-! ### SQL renderer (`core/utils/exporters/sql_exporter.py`) -/

/-- Double every single quote (Python `str.replace("'", "''")`). -/
def escChars : List Char → List Char
  | [] => []
  | c :: r => if c = sqChar then sqChar :: sqChar :: escChars r else c :: escChars r

/-- Collapse every doubled single quote back to one: conceptually re-parsing
the quoted literal's body. -/
def unescChars : List Char → List Char
  | [] => []
  | [c] => [c]
  | c :: d :: r =>
    if c = sqChar ∧ d = sqChar then sqChar :: unescChars r
    else c :: unescChars (d :: r)

/-- Wrap a string in single quotes with embedded single quotes doubled. -/
def quoteWrap (s : String) : String := ⟨sqChar :: (escChars s.data ++ [sqChar])⟩

/-- Zero-padded two-digit field of `strftime`. -/
def pad2 (n : Nat) : String := if n < 10 then "0" ++ toString n else toString n

/-- Zero-padded four-digit year of `strftime`. -/
def pad4 (n : Nat) : String :=
  if n < 10 then "000" ++ toString n
  else if n < 100 then "00" ++ toString n
  else if n < 1000 then "0" ++ toString n
  else toString n

/-- `SQLInsertBuilder._format_value`.  The `bool` test precedes the numeric
one, as in the source (`bool` is a subclass of `int` in Python); `str()` of an
opaque Faker value is modelled as its tag and draw number. -/
def formatValue : Value → String
  | .null => "NULL"
  | .bool b => if b then "1" else "0"
  | .int i => toString i
  | .float q => toString q
  | .datetime y mo d h mi s =>
    ⟨sqChar :: (pad4 y ++ "-" ++ pad2 mo ++ "-" ++ pad2 d ++ " " ++
      pad2 h ++ ":" ++ pad2 mi ++ ":" ++ pad2 s).data ++ [sqChar]⟩
  | .str s => quoteWrap s
  | .fake m n => quoteWrap (m ++ "_" ++ toString n)

/-- `SQLInsertBuilder._build_insert`: one INSERT statement; a column missing
from the record renders as `NULL` (`record.get(col)`). -/
def buildInsert (tableName : String) (record : Record) (columns : List String) : String :=
  "INSERT INTO " ++ tableName ++ " (" ++ joinCommaSpace columns ++ ") VALUES (" ++
    joinCommaSpace (columns.map (fun c => formatValue ((alookup record c).getD Value.null))) ++ ");"

/-! ### Specification-level notions used in the theorems -/

/-- A nonempty edge path from `a` to `b` through the intermediate nodes `l`. -/
inductive PathL (E : List (String × String)) : String → List String → String → Prop
  | single {a b : String} : (a, b) ∈ E → PathL E a [] b
  | cons {a c b : String} {l : List String} :
      (a, c) ∈ E → PathL E c l b → PathL E a (c :: l) b

/-- Index of the first occurrence of an element (length if absent). -/
def idxOf : List String → String → Nat
  | [], _ => 0
  | x :: r, a => if x = a then 0 else idxOf r a + 1

/-- The guarantee a single foreign-key cell enjoys with respect to a pool map:
either the referenced pool exists, is nonempty, and the value is null or drawn
from it; or the pool is missing/empty and the value is null. -/
def fkCellOk (pools : List (String × List Value)) (fk : FKInfo) (v : Value) : Prop :=
  (∃ pool, alookup pools fk.ref_table = some pool ∧ pool ≠ [] ∧ (v = Value.null ∨ v ∈ pool)) ∨
  ((alookup pools fk.ref_table = none ∨ alookup pools fk.ref_table = some []) ∧ v = Value.null)

/-! ### Concrete inputs used by counterexamples and witnesses -/

/-- Two tables, `a` holding a foreign key into `b`. -/
def sqlTwoTablesFk : String :=
  "CREATE TABLE b (id INT PRIMARY KEY); CREATE TABLE a (id INT PRIMARY KEY, x INT, FOREIGN KEY (x) REFERENCES b (id))"

/-- The acyclic demonstration schema from the specification. -/
def sqlCountriesCities : String :=
  "CREATE TABLE countries (id INT PRIMARY KEY, name VARCHAR(50)); CREATE TABLE cities (id INT PRIMARY KEY, name VARCHAR(50), country_id INT, FOREIGN KEY (country_id) REFERENCES countries (id))"

/-- The two-table mutual-reference schema. -/
def sqlMutualRef : String :=
  "CREATE TABLE A (id INT PRIMARY KEY, b_id INT, FOREIGN KEY (b_id) REFERENCES B (id)); CREATE TABLE B (id INT PRIMARY KEY, a_id INT, FOREIGN KEY (a_id) REFERENCES A (id))"

/-- A table whose primary-key column is also a foreign-key column. -/
def sqlPkAlsoFk : String :=
  "CREATE TABLE b (id INT PRIMARY KEY); CREATE TABLE a (id INT PRIMARY KEY, FOREIGN KEY (id) REFERENCES b (id))"

/-- An inline primary key followed by a conflicting constraint clause. -/
def sqlPkConflict : String := "CREATE TABLE t (a INT PRIMARY KEY, b INT, PRIMARY KEY (b))"

/-- A foreign key whose referenced table does not exist. -/
def sqlDanglingFk : String := "CREATE TABLE a (x INT, FOREIGN KEY (x) REFERENCES ghost (id))"

/-- A single table with an integer primary key. -/
def sqlSingleTable : String := "CREATE TABLE t (id INT PRIMARY KEY, name VARCHAR(50))"

/-- A fully specified configuration with a fixed seed. -/
def cfgSeeded : GeneratorConfig :=
  { locale := "en_US", seed := some 42, nullable_fk_probability := mkRat 3 10 }

deriving instance DecidableEq for Except

/-- Stepping-stone instance keeping later instance searches small. -/
instance decEqDataset : DecidableEq (List (String × List Record)) := inferInstance

/-- Decidable equality of a full generator result. -/
instance decEqGenOut : DecidableEq (List (String × List Record) × GState) := inferInstance

/-- Decidable equality of the generator's `Except` result. -/
instance decEqGenResult : DecidableEq (Except GenError (List (String × List Record) × GState)) :=
  inferInstance

/-! ### Association-list lemmas -/

theorem alookup_mem {α : Type} {l : List (String × α)} {k : String} {v : α}
    (h : alookup l k = some v) : (k, v) ∈ l := by
  induction l with
  | nil => simp [alookup] at h
  | cons hd tl ih =>
    obtain ⟨k', v'⟩ := hd
    by_cases hk : k' = k
    · subst hk
      simp [alookup] at h
      simp [h]
    · simp [alookup, hk] at h
      exact List.mem_cons_of_mem _ (ih h)

theorem alookup_eq_none {α : Type} {l : List (String × α)} {k : String} :
    alookup l k = none ↔ k ∉ l.map Prod.fst := by
  induction l with
  | nil => simp [alookup]
  | cons hd tl ih =>
    obtain ⟨k', v'⟩ := hd
    by_cases hk : k' = k
    · subst hk
      simp [alookup]
    · simp [alookup, hk, ih, Ne.symm hk]

theorem alookup_append_some {α : Type} {l₁ l₂ : List (String × α)} {k : String} {v : α}
    (h : alookup l₁ k = some v) : alookup (l₁ ++ l₂) k = some v := by
  induction l₁ with
  | nil => simp [alookup] at h
  | cons hd tl ih =>
    obtain ⟨k', v'⟩ := hd
    by_cases hk : k' = k
    · subst hk
      simp [alookup] at h ⊢
      exact h
    · simp [alookup, hk] at h ⊢
      exact ih h

theorem alookup_append_none {α : Type} {l₁ l₂ : List (String × α)} {k : String}
    (h : alookup l₁ k = none) : alookup (l₁ ++ l₂) k = alookup l₂ k := by
  induction l₁ with
  | nil => simp
  | cons hd tl ih =>
    obtain ⟨k', v'⟩ := hd
    by_cases hk : k' = k
    · subst hk
      simp [alookup] at h
    · simp [alookup, hk] at h ⊢
      exact ih h

theorem alookup_alInsert_self {α : Type} (l : List (String × α)) (k : String) (v : α) :
    alookup (alInsert l k v) k = some v := by
  induction l with
  | nil => simp [alInsert, alookup]
  | cons hd tl ih =>
    obtain ⟨k', v'⟩ := hd
    by_cases hk : k' = k
    · subst hk
      simp [alInsert, alookup]
    · simp [alInsert, alookup, hk, ih]

theorem mem_alInsert {α : Type} {x : String × α} {l : List (String × α)} {k : String} {v : α}
    (h : x ∈ alInsert l k v) : x ∈ l ∨ x = (k, v) := by
  induction l with
  | nil => simpa [alInsert] using h
  | cons hd tl ih =>
    obtain ⟨k', v'⟩ := hd
    by_cases hk : k' = k
    · subst hk
      simp [alInsert] at h
      rcases h with h | h
      · exact Or.inr h
      · exact Or.inl (List.mem_cons_of_mem _ h)
    · simp [alInsert, hk] at h
      rcases h with h | h
      · exact Or.inl (by simp [h])
      · rcases ih h with h' | h'
        · exact Or.inl (List.mem_cons_of_mem _ h')
        · exact Or.inr h'

theorem alInsert_keys {α : Type} (l : List (String × α)) (k : String) (v : α) :
    (alInsert l k v).map Prod.fst =
      if k ∈ l.map Prod.fst then l.map Prod.fst else l.map Prod.fst ++ [k] := by
  induction l with
  | nil => simp [alInsert]
  | cons hd tl ih =>
    obtain ⟨k', v'⟩ := hd
    by_cases hk : k' = k
    · subst hk
      simp [alInsert]
    · simp only [alInsert, if_neg hk, List.map_cons, ih]
      by_cases hmem : k ∈ tl.map Prod.fst
      · simp [hmem, Ne.symm hk]
      · simp [hmem, Ne.symm hk]

theorem alInsert_keys_nodup {α : Type} {l : List (String × α)} {k : String} {v : α}
    (h : (l.map Prod.fst).Nodup) : ((alInsert l k v).map Prod.fst).Nodup := by
  rw [alInsert_keys]
  by_cases hmem : k ∈ l.map Prod.fst
  · simpa [hmem] using h
  · simpa [hmem] using List.Nodup.append h (List.nodup_singleton k) (by simpa using hmem)

/-- Fold-invariant helper. -/
theorem foldl_preserve {α β : Type} (P : β → Prop) {f : β → α → β}
    (hstep : ∀ b a, P b → P (f b a)) : ∀ (l : List α) (b : β), P b → P (l.foldl f b) := by
  intro l
  induction l with
  | nil => intro b hb; exact hb
  | cons a t ih => intro b hb; exact ih _ (hstep _ _ hb)

/-! ### Parser well-formedness -/

/-- Key and column maps produced by the parser behave like Python dicts. -/
def WFInfo (info : TableInfo) : Prop :=
  (info.columns.map Prod.fst).Nodup ∧ (info.foreign_keys.map Prod.fst).Nodup

theorem processClause_wf (info : TableInfo) (part : String) (h : WFInfo info) :
    WFInfo (processClause info part) := by
  obtain ⟨hc, hf⟩ := h
  unfold processClause
  dsimp only
  split
  · exact ⟨hc, hf⟩
  · split
    · split
      · split
        · exact ⟨hc, hf⟩
        · exact ⟨hc, hf⟩
      · split
        · split
          · exact ⟨hc, alInsert_keys_nodup hf⟩
          · exact ⟨hc, hf⟩
        · exact ⟨hc, hf⟩
    · split
      · split
        · split
          · exact ⟨alInsert_keys_nodup hc, hf⟩
          · exact ⟨alInsert_keys_nodup hc, hf⟩
        · exact ⟨hc, hf⟩
      · exact ⟨hc, hf⟩

theorem parseTableDefinition_wf (stmt : String) : WFInfo (parseTableDefinition stmt emptyTableInfo) := by
  have hempty : WFInfo emptyTableInfo := ⟨List.nodup_nil, List.nodup_nil⟩
  unfold parseTableDefinition
  split
  · exact hempty
  · dsimp only
    split
    · exact hempty
    · exact foldl_preserve WFInfo (fun b a hb => processClause_wf b a hb) _ _ hempty

theorem parseSqlSchema_wf (sql : String) :
    ((parseSqlSchema sql).map Prod.fst).Nodup ∧
      ∀ p ∈ parseSqlSchema sql, WFInfo p.2 := by
  unfold parseSqlSchema
  refine foldl_preserve (fun r : Schema =>
    (r.map Prod.fst).Nodup ∧ ∀ p ∈ r, WFInfo p.2) ?_ _ _ ⟨List.nodup_nil, by simp⟩
  intro r stmt ⟨hnd, hvals⟩
  dsimp only
  split
  · split
    · refine ⟨alInsert_keys_nodup hnd, ?_⟩
      intro p hp
      rcases mem_alInsert hp with h | h
      · exact hvals _ h
      · subst h
        exact parseTableDefinition_wf _
    · exact ⟨hnd, hvals⟩
  · exact ⟨hnd, hvals⟩

/-! ### Renderer lemmas -/

theorem escChars_eq_nil {l : List Char} (h : escChars l = []) : l = [] := by
  cases l with
  | nil => rfl
  | cons c r =>
    by_cases hc : c = sqChar <;> simp [escChars, hc] at h

theorem unesc_escChars (l : List Char) : unescChars (escChars l) = l := by
  induction l with
  | nil => rfl
  | cons c r ih =>
    by_cases hc : c = sqChar
    · subst hc
      simp [escChars, unescChars, ih]
    · rw [escChars, if_neg hc]
      cases hr : escChars r with
      | nil =>
        have : r = [] := escChars_eq_nil hr
        subst this
        rfl
      | cons d rest =>
        rw [unescChars]
        rw [if_neg (by intro hand; exact hc hand.1)]
        rw [← hr, ih]

/-! ### Small matcher lemmas used by the amended parser theorems -/

theorem leadsChars_first {a : Char} {as cs : List Char}
    (h : leadsChars (a :: as) cs = true) : ∃ t, cs = a :: t ∧ leadsChars as t = true := by
  cases cs with
  | nil => simp [leadsChars] at h
  | cons c t =>
    simp only [leadsChars, Bool.and_eq_true, decide_eq_true_eq] at h
    exact ⟨t, by rw [h.1], h.2⟩

theorem leadsW_primary_of_foreign {pu : String} (h : leadsW "FOREIGN KEY" pu = true) :
    leadsW "PRIMARY KEY" pu = false := by
  cases hpk : leadsW "PRIMARY KEY" pu with
  | false => rfl
  | true =>
    exfalso
    have h' : leadsChars ('F' :: "OREIGN KEY".data) pu.data = true := h
    have hpk' : leadsChars ('P' :: "RIMARY KEY".data) pu.data = true := hpk
    obtain ⟨t₁, ht₁, _⟩ := leadsChars_first h'
    obtain ⟨t₂, ht₂, _⟩ := leadsChars_first hpk'
    rw [ht₁] at ht₂
    have : 'F' = 'P' := by injection ht₂ with h1 _
    exact absurd this (by decide)

theorem leadsW_empty_false {pre : String} {a : Char} {as : List Char}
    (hpre : pre.data = a :: as) {s : String} (hs : s.data = []) : leadsW pre s = false := by
  unfold leadsW
  rw [hpre, hs]
  rfl

/-- A clause whose trimmed-uppercase form starts with a nonempty keyword is nonempty. -/
theorem clause_nonempty_of_leadsW {part kw : String} {a : Char} {as : List Char}
    (hkw : kw.data = a :: as) (h : leadsW kw (trimS (strUpper (trimS part))) = true) :
    ((trimS part).data.isEmpty = true) → False := by
  intro hemp
  have hd : (trimS part).data = [] := by simpa using hemp
  have h1 : (strUpper (trimS part)).data = [] := by
    show ((trimS part).data.map Char.toUpper) = []
    rw [hd]; rfl
  have h2 : (trimS (strUpper (trimS part))).data = [] := by
    show trimChars (strUpper (trimS part)).data = []
    rw [h1]; rfl
  rw [leadsW_empty_false hkw h2] at h
  cases h

/-! ### Claim theorems, first group -/

/-- C9: the renderer formats every string as a single-quoted literal whose body
is the string with each embedded single quote doubled, so collapsing the
doubled quotes of the body recovers the original string exactly; null renders
as `NULL` and booleans as `1`/`0`. -/
theorem c9_string_rendering_roundtrip :
    (∀ s : String, ∃ body : List Char,
        formatValue (Value.str s) = ⟨sqChar :: (body ++ [sqChar])⟩ ∧
        unescChars body = s.data ∧ body = escChars s.data) ∧
    formatValue Value.null = "NULL" ∧
    formatValue (Value.bool true) = "1" ∧
    formatValue (Value.bool false) = "0" := by
  exact ⟨fun s => ⟨escChars s.data, rfl, unesc_escChars _, rfl⟩, rfl, rfl, rfl⟩

/-- C10: `get_dependencies` and `get_dependents` return the empty list for any
table name that is not a node of the graph; both operations are total
functions of the schema and the queried name. -/
theorem c10_absent_table_queries_empty (tables : Schema) (t : String)
    (h : t ∉ schemaKeys tables) :
    getDependencies tables t = [] ∧ getDependents tables t = [] := by
  unfold getDependencies getDependents
  rw [if_neg h, if_neg h]
  exact ⟨rfl, rfl⟩

/-- Witness for C10 on a concrete parsed schema and an absent table name. -/
theorem c10_witness :
    "zzz" ∉ schemaKeys (parseSqlSchema sqlTwoTablesFk) ∧
    getDependencies (parseSqlSchema sqlTwoTablesFk) "zzz" = [] ∧
    getDependents (parseSqlSchema sqlTwoTablesFk) "zzz" = [] := by
  have h : "zzz" ∉ schemaKeys (parseSqlSchema sqlTwoTablesFk) := by decide
  exact ⟨h, c10_absent_table_queries_empty _ _ h⟩

/-- C6 (code bug): for a non-key column whose name contains a heuristic
keyword only in an excluded combination (`city`/`code`/`date` together with
`id`) and whose type is recognised, `generate_value` returns null: the smart
generator's `can_handle` matches on the keyword alone, its `generate` returns
`None`, and the factory returns that `None` instead of falling through to the
type-based generator its comment promises. -/
theorem c6_excluded_name_combination_yields_null :
    generateValue "city_id" "INT" false 0 ⟨[], []⟩ = (Value.null, ⟨[], []⟩) ∧
    generateValue "code_id" "INT" false 0 ⟨[], []⟩ = (Value.null, ⟨[], []⟩) ∧
    generateValue "date_id" "INT" false 0 ⟨[], []⟩ = (Value.null, ⟨[], []⟩) ∧
    smartCanHandle "city_id" = true ∧
    intFamily.contains (baseTypeOf "INT") = true ∧
    integerGenerate "INT" ⟨[], []⟩ = (Value.fake "random_int" 0, ⟨[], []⟩) := by decide

/-- C4 counterexample: in
`CREATE TABLE t (a INT PRIMARY KEY, b INT, PRIMARY KEY (b))` the inline
declaration on `a` comes first, yet the final primary key is `b`: the
PRIMARY KEY constraint clause overwrites unconditionally. -/
theorem c4_counterexample_constraint_overwrites :
    (alookup (parseSqlSchema sqlPkConflict) "t").map TableInfo.primary_key = some (some "b") ∧
    some (some "b") ≠ some (some ("a" : String)) := by decide

/-- C4 (amended): a PRIMARY KEY constraint clause whose column extracts
successfully always assigns that column as the primary key, overwriting any
earlier declaration (last constraint clause wins); every other clause —
including a column definition with an inline PRIMARY KEY modifier — leaves an
already-set primary key unchanged. -/
theorem c4_first_declaration_amended (info : TableInfo) (part : String) :
    (∀ c : String, leadsW "PRIMARY KEY" (trimS (strUpper (trimS part))) = true →
        extractPrimaryKeyColumn (trimS part) = some c →
        (processClause info part).primary_key = some c) ∧
    (∀ q : String, info.primary_key = some q →
        leadsW "PRIMARY KEY" (trimS (strUpper (trimS part))) = false →
        (processClause info part).primary_key = some q) := by
  constructor
  · intro c h1 h2
    unfold processClause
    dsimp only
    rw [if_neg (clause_nonempty_of_leadsW
      (show ("PRIMARY KEY" : String).data = 'P' :: "RIMARY KEY".data from rfl) h1)]
    have hck : isConstraintOrKeyword (trimS (strUpper (trimS part))) = true := by
      unfold isConstraintOrKeyword
      rw [List.any_eq_true]
      exact ⟨"PRIMARY KEY", by simp [constraintKeywords], h1⟩
    rw [if_pos hck, if_pos h1, h2]
  · intro q hq h2
    unfold processClause
    dsimp only
    split
    · exact hq
    · split
      · split
        · next hpk => rw [h2] at hpk; cases hpk
        · split
          · split
            · exact hq
            · exact hq
          · exact hq
      · split
        · next n ty isPk heq =>
          split
          · split
            · next hcond => rw [hq] at hcond; simp at hcond
            · exact hq
          · exact hq
        · exact hq

/-- Witness for the amended C4: a constraint clause overwrites an existing
primary key `a` with `b`; an inline modifier does not override it. -/
theorem c4_amended_witness :
    (processClause ⟨[("a", "INT")], some "a", []⟩ "PRIMARY KEY (b)").primary_key = some "b" ∧
    (processClause ⟨[("a", "INT")], some "a", []⟩ "c INT PRIMARY KEY").primary_key = some "a" := by
  constructor
  · exact (c4_first_declaration_amended _ _).1 "b" (by decide) (by decide)
  · exact (c4_first_declaration_amended _ _).2 "a" rfl (by decide)

/-- C5 counterexample: a foreign key referencing the absent table `ghost` is
recorded in the parsed schema map even though `ghost` is not one of its keys. -/
theorem c5_counterexample_dangling_recorded :
    (alookup (parseSqlSchema sqlDanglingFk) "a").map TableInfo.foreign_keys =
      some [("x", ⟨"ghost", "id"⟩)] ∧
    "ghost" ∉ schemaKeys (parseSqlSchema sqlDanglingFk) := by decide

/-- C5 (amended): the parser records a foreign key regardless of whether the
referenced table exists in the schema map; dangling references are instead
dropped when the dependency graph is built — every edge of the graph has both
endpoints among the schema's table names. -/
theorem c5_dangling_dropped_at_graph_amended :
    (∀ (tables : Schema) (e : String × String), e ∈ buildEdges tables →
        e.1 ∈ schemaKeys tables ∧ e.2 ∈ schemaKeys tables) ∧
    (∀ (info : TableInfo) (part : String) (lc rt rc : String),
        leadsW "FOREIGN KEY" (trimS (strUpper (trimS part))) = true →
        extractForeignKey (trimS part) = some (lc, rt, rc) →
        alookup (processClause info part).foreign_keys lc = some ⟨rt, rc⟩) := by
  constructor
  · intro tables e he
    unfold buildEdges at he
    rw [List.mem_dedup, List.mem_flatMap] at he
    obtain ⟨ti, hti, hmem⟩ := he
    rw [List.mem_filterMap] at hmem
    obtain ⟨cf, _, heq⟩ := hmem
    split_ifs at heq with hcond
    · cases heq
      exact ⟨hcond.2, List.mem_map.mpr ⟨ti, hti, rfl⟩⟩
  · intro info part lc rt rc h1 h2
    unfold processClause
    dsimp only
    rw [if_neg (clause_nonempty_of_leadsW
      (show ("FOREIGN KEY" : String).data = 'F' :: "OREIGN KEY".data from rfl) h1)]
    have hck : isConstraintOrKeyword (trimS (strUpper (trimS part))) = true := by
      unfold isConstraintOrKeyword
      rw [List.any_eq_true]
      exact ⟨"FOREIGN KEY", by simp [constraintKeywords], h1⟩
    rw [if_pos hck, if_neg (by rw [leadsW_primary_of_foreign h1]; simp),
      if_pos (by rw [h1]; simp), h2]
    exact alookup_alInsert_self _ _ _

/-- Witness for the amended C5: the dangling clause is recorded, and a
concrete graph edge has both endpoints in the schema. -/
theorem c5_amended_witness :
    alookup (processClause emptyTableInfo "FOREIGN KEY (x) REFERENCES ghost (id)").foreign_keys
        "x" = some ⟨"ghost", "id"⟩ ∧
    ("countries" ∈ schemaKeys (parseSqlSchema sqlCountriesCities) ∧
      "cities" ∈ schemaKeys (parseSqlSchema sqlCountriesCities)) := by
  constructor
  · exact (c5_dangling_dropped_at_graph_amended).2 emptyTableInfo _ "x" "ghost" "id"
      (by decide) (by decide)
  · exact (c5_dangling_dropped_at_graph_amended).1 (parseSqlSchema sqlCountriesCities)
      ("countries", "cities") (by decide)

/-- C3 (code bug): two calls of `DataGenerator.generate` with the identical
seeded configuration, schema text and record count yield different datasets
when the process-global `random` state differs beforehand: the foreign-key
null decision draws from the never-seeded global `random` module, so the
promised seed-reproducibility fails. -/
theorem c3_seeded_run_depends_on_global_random_state :
    DataGenerator.generate cfgSeeded sqlTwoTablesFk 1 ⟨[0], []⟩ =
      .ok ([("b", [[("id", Value.int 1)]]), ("a", [[("id", Value.int 1), ("x", Value.null)]])],
        ⟨[], []⟩) ∧
    DataGenerator.generate cfgSeeded sqlTwoTablesFk 1 ⟨[2 ^ 52, 0], []⟩ =
      .ok ([("b", [[("id", Value.int 1)]]), ("a", [[("id", Value.int 1), ("x", Value.int 1)]])],
        ⟨[], []⟩) ∧
    ([("b", [[("id", Value.int 1)]]), ("a", [[("id", Value.int 1), ("x", Value.null)]])] :
        List (String × List Record)) ≠
      [("b", [[("id", Value.int 1)]]), ("a", [[("id", Value.int 1), ("x", Value.int 1)]])] := by
  decide

/-- C8 counterexample: in `sqlPkAlsoFk` the table `a` has integer primary key
`id` which is simultaneously a foreign-key column; generation skips it in the
base pass and fills it by the foreign-key rule, here null — not `[1]`. -/
theorem c8_counterexample_pk_foreign_key :
    DataGenerator.generate cfgSeeded sqlPkAlsoFk 1 ⟨[0], []⟩ =
      .ok ([("b", [[("id", Value.int 1)]]), ("a", [[("id", Value.null)]])], ⟨[], []⟩) ∧
    (alookup (parseSqlSchema sqlPkAlsoFk) "a").map TableInfo.primary_key = some (some "id") ∧
    (alookup (parseSqlSchema sqlPkAlsoFk) "a").map (fun i => alookup i.columns "id") =
      some (some "INT") ∧
    [Value.null] ≠ [Value.int 1] := by decide

/-! ### Path and reachability lemmas -/

theorem pathL_target_mem {E : List (String × String)} {a b : String} {l : List String}
    (h : PathL E a l b) : b ∈ E.map Prod.snd := by
  induction h with
  | single he => exact List.mem_map.mpr ⟨_, he, rfl⟩
  | cons _ _ ih => exact ih

theorem pathL_mid_mem {E : List (String × String)} {a b : String} {l : List String}
    (h : PathL E a l b) : ∀ x ∈ l, x ∈ E.map Prod.snd := by
  induction h with
  | single _ => intro x hx; cases hx
  | cons he hp ih =>
    intro x hx
    rcases List.mem_cons.mp hx with hx | hx
    · subst hx; exact List.mem_map.mpr ⟨_, he, rfl⟩
    · exact ih x hx

theorem pathL_split {E : List (String × String)} :
    ∀ {q₁ : List String} {a c b : String} {q₂ : List String},
      PathL E a (q₁ ++ c :: q₂) b → PathL E c q₂ b := by
  intro q₁
  induction q₁ with
  | nil =>
    intro a c b q₂ h
    cases h with
    | cons _ hp => exact hp
  | cons x q₁' ih =>
    intro a c b q₂ h
    cases h with
    | cons _ hp => exact ih hp

theorem pathL_shorten {E : List (String × String)} {a b : String} {l : List String}
    (hp : PathL E a l b) :
    ∃ q, PathL E a q b ∧ q.Nodup ∧ b ∉ q ∧ q.length ≤ l.length := by
  induction hp with
  | single h => exact ⟨[], .single h, by simp, by simp, by simp⟩
  | @cons a c b l h hp' ih =>
    obtain ⟨q, hq, hnd, hbq, hlen⟩ := ih
    by_cases hcb : c = b
    · subst hcb
      exact ⟨[], .single h, by simp, by simp, by simp⟩
    · by_cases hcq : c ∈ q
      · obtain ⟨s, t, hst⟩ := List.append_of_mem hcq
        have hq2 : PathL E c t b := pathL_split (hst ▸ hq)
        have hndq : (s ++ c :: t).Nodup := hst ▸ hnd
        have hct₀ := List.Nodup.of_append_right hndq
        rw [List.nodup_cons] at hct₀
        have hbt : b ∉ t := by
          intro hbt
          exact hbq (hst ▸ List.mem_append_right s (List.mem_cons_of_mem c hbt))
        have hlt : t.length ≤ q.length := by
          rw [hst, List.length_append, List.length_cons]
          omega
        refine ⟨c :: t, .cons h hq2, List.nodup_cons.mpr ⟨hct₀.1, hct₀.2⟩, ?_, ?_⟩
        · intro hbm
          rcases List.mem_cons.mp hbm with hbm | hbm
          · exact hcb hbm.symm
          · exact hbt hbm
        · simp only [List.length_cons]
          omega
      · refine ⟨c :: q, .cons h hq, List.nodup_cons.mpr ⟨hcq, hnd⟩, ?_, ?_⟩
        · intro hbm
          rcases List.mem_cons.mp hbm with hbm | hbm
          · exact hcb hbm.symm
          · exact hbq hbm
        · simp only [List.length_cons]
          omega

theorem reachesB_sound {E : List (String × String)} :
    ∀ {f : Nat} {a b : String}, reachesB E f a b = true → ∃ l, PathL E a l b := by
  intro f
  induction f with
  | zero => intro a b h; cases h
  | succ f ih =>
    intro a b h
    unfold reachesB at h
    rw [List.any_eq_true] at h
    obtain ⟨e, heE, hcond⟩ := h
    obtain ⟨x, y⟩ := e
    simp only [Bool.and_eq_true, Bool.or_eq_true, decide_eq_true_eq] at hcond
    obtain ⟨h1, h2⟩ := hcond
    subst h1
    rcases h2 with h2 | h2
    · subst h2
      exact ⟨[], .single heE⟩
    · obtain ⟨l, hp⟩ := ih h2
      exact ⟨y :: l, .cons heE hp⟩

theorem reachesB_of_pathL {E : List (String × String)} {a b : String} {l : List String}
    (hp : PathL E a l b) : ∀ f, l.length + 1 ≤ f → reachesB E f a b = true := by
  induction hp with
  | @single a b h =>
    intro f hf
    cases f with
    | zero => omega
    | succ f' =>
      unfold reachesB
      rw [List.any_eq_true]
      exact ⟨(a, b), h, by simp⟩
  | @cons a c b l h hp' ih =>
    intro f hf
    cases f with
    | zero => omega
    | succ f' =>
      unfold reachesB
      rw [List.any_eq_true]
      refine ⟨(a, c), h, ?_⟩
      simp only [List.length_cons] at hf
      simp [ih f' (by omega)]

theorem onCycleB_iff {E : List (String × String)} {n : String} :
    onCycleB E n = true ↔ ∃ l, PathL E n l n := by
  constructor
  · exact fun h => reachesB_sound h
  · rintro ⟨l, hp⟩
    obtain ⟨q, hq, hnd, hnq, _⟩ := pathL_shorten hp
    have hnodup : (n :: q).Nodup := List.nodup_cons.mpr ⟨hnq, hnd⟩
    have hsubT : (n :: q) ⊆ (E.map Prod.snd).dedup := by
      intro x hx
      rw [List.mem_dedup]
      rcases List.mem_cons.mp hx with hx | hx
      · subst hx; exact pathL_target_mem hq
      · exact pathL_mid_mem hq x hx
    have hle := (hnodup.subperm hsubT).length_le
    simp only [List.length_cons] at hle
    exact reachesB_of_pathL hq _ hle

/-! ### Kahn's algorithm lemmas -/

theorem kahnAux_perm (E : List (String × String)) :
    ∀ (fuel : Nat) (rem order : List String),
      kahnAux E fuel rem = some order → order.Perm rem := by
  intro fuel
  induction fuel with
  | zero =>
    intro rem order h
    unfold kahnAux at h
    split_ifs at h with hemp
    · rw [List.isEmpty_iff] at hemp
      subst hemp
      cases h
      exact List.Perm.refl _
  | succ f ih =>
    intro rem order h
    unfold kahnAux at h
    cases hf : rem.find? (fun n => noIncoming E rem n) with
    | none =>
      rw [hf] at h
      dsimp only at h
      split_ifs at h with hemp
      · rw [List.isEmpty_iff] at hemp
        subst hemp
        cases h
        exact List.Perm.refl _
    | some n =>
      rw [hf] at h
      dsimp only at h
      cases hrec : kahnAux E f (rem.erase n) with
      | none => rw [hrec] at h; cases h
      | some ord =>
        rw [hrec] at h
        cases h
        have hn := List.mem_of_find?_eq_some hf
        exact ((ih _ _ hrec).cons n).trans (List.perm_cons_erase hn).symm

theorem kahnAux_sorts (E : List (String × String)) :
    ∀ (fuel : Nat) (rem order : List String),
      kahnAux E fuel rem = some order →
      ∀ a b, (a, b) ∈ E → a ∈ rem → b ∈ rem → idxOf order a < idxOf order b := by
  intro fuel
  induction fuel with
  | zero =>
    intro rem order h a b _ ha _
    unfold kahnAux at h
    split_ifs at h with hemp
    · rw [List.isEmpty_iff] at hemp
      subst hemp
      cases ha
  | succ f ih =>
    intro rem order h a b hab ha hb
    unfold kahnAux at h
    cases hf : rem.find? (fun n => noIncoming E rem n) with
    | none =>
      rw [hf] at h
      dsimp only at h
      split_ifs at h with hemp
      · rw [List.isEmpty_iff] at hemp
        subst hemp
        cases ha
    | some n =>
      rw [hf] at h
      dsimp only at h
      cases hrec : kahnAux E f (rem.erase n) with
      | none => rw [hrec] at h; cases h
      | some ord =>
        rw [hrec] at h
        cases h
        have hni := List.find?_some hf
        have hbn : b ≠ n := by
          intro hbn
          subst hbn
          unfold noIncoming at hni
          rw [Bool.not_eq_true'] at hni
          rw [List.any_eq_false] at hni
          have h2 := hni (a, b) hab
          simp only [List.elem_iff, Bool.and_eq_true, decide_eq_true_eq] at h2
          exact h2 ⟨by simp, ha⟩
        by_cases han : a = n
        · subst han
          have e1 : idxOf (a :: ord) a = 0 := by simp [idxOf]
          have e2 : idxOf (a :: ord) b = idxOf ord b + 1 := by simp [idxOf, Ne.symm hbn]
          rw [e1, e2]
          omega
        · have hamem : a ∈ rem.erase n := (List.mem_erase_of_ne han).mpr ha
          have hbmem : b ∈ rem.erase n := (List.mem_erase_of_ne hbn).mpr hb
          have hlt := ih _ _ hrec a b hab hamem hbmem
          have e1 : idxOf (n :: ord) a = idxOf ord a + 1 := by simp [idxOf, Ne.symm han]
          have e2 : idxOf (n :: ord) b = idxOf ord b + 1 := by simp [idxOf, Ne.symm hbn]
          rw [e1, e2]
          omega

theorem chain_mem_path {E : List (String × String)} {a : String} {l : List String}
    (hch : List.Chain (fun x y => (x, y) ∈ E) a l) :
    ∀ y ∈ l, ∃ m, PathL E a m y := by
  induction hch with
  | nil => intro y hy; cases hy
  | @cons a b l hR hch ih =>
    intro y hy
    rcases List.mem_cons.mp hy with hy | hy
    · subst hy
      exact ⟨[], .single hR⟩
    · obtain ⟨m, hm⟩ := ih y hy
      exact ⟨b :: m, .cons hR hm⟩

theorem chain_sublist_path {E : List (String × String)} :
    ∀ {l : List String} {a x y : String},
      List.Chain (fun u v => (u, v) ∈ E) a l → [x, y].Sublist (a :: l) →
      ∃ m, PathL E x m y := by
  intro l
  induction l with
  | nil =>
    intro a x y _ hs
    have := hs.length_le
    simp at this
  | cons b l' ih =>
    intro a x y hch hs
    cases hs with
    | cons _ hs' =>
      cases hch with
      | cons _ hch' => exact ih hch' hs'
    | cons₂ _ hs' =>
      exact chain_mem_path hch y (List.singleton_sublist.mp hs')

theorem exists_no_incoming (E : List (String × String)) (rem : List String)
    (hne : rem ≠ []) (hnd : rem.Nodup)
    (hacyc : ∀ n ∈ rem, ∀ l, ¬ PathL E n l n) :
    ∃ n, n ∈ rem ∧ noIncoming E rem n = true := by
  by_contra hno
  push_neg at hno
  have hpred : ∀ n ∈ rem, ∃ p, p ∈ rem ∧ (p, n) ∈ E := by
    intro n hn
    have h := hno n hn
    rw [Ne, Bool.not_eq_true] at h
    unfold noIncoming at h
    rw [Bool.not_eq_false'] at h
    rw [List.any_eq_true] at h
    obtain ⟨e, heE, hcond⟩ := h
    obtain ⟨p, m⟩ := e
    simp only [Bool.and_eq_true, decide_eq_true_eq, List.elem_iff] at hcond
    obtain ⟨hm, hp⟩ := hcond
    subst hm
    exact ⟨p, hp, heE⟩
  obtain ⟨n₀, hn₀⟩ := List.exists_mem_of_ne_nil rem hne
  have hchain : ∀ k : Nat, ∃ a l, List.Chain (fun x y => (x, y) ∈ E) a l ∧
      (∀ x ∈ a :: l, x ∈ rem) ∧ (a :: l).length = k + 1 := by
    intro k
    induction k with
    | zero => exact ⟨n₀, [], List.Chain.nil, by simpa using hn₀, rfl⟩
    | succ k ihk =>
      obtain ⟨a, l, hch, hmem, hlen⟩ := ihk
      obtain ⟨p, hp, hpe⟩ := hpred a (hmem a (by simp))
      refine ⟨p, a :: l, List.Chain.cons hpe hch, ?_, by simp [List.length_cons] at hlen ⊢; omega⟩
      intro x hx
      rcases List.mem_cons.mp hx with hx | hx
      · subst hx; exact hp
      · exact hmem x hx
  obtain ⟨a, l, hch, hmem, hlen⟩ := hchain rem.length
  have hdup : ¬ (a :: l).Nodup := by
    intro hnodup
    have hsub : (a :: l) ⊆ rem := fun x hx => hmem x hx
    have := (hnodup.subperm hsub).length_le
    omega
  obtain ⟨x, hx⟩ := List.exists_duplicate_iff_not_nodup.mpr hdup
  have hsx : [x, x].Sublist (a :: l) := List.duplicate_iff_sublist.mp hx
  obtain ⟨m, hm⟩ := chain_sublist_path hch hsx
  have hxrem : x ∈ rem := hmem x (hsx.subset (by simp))
  exact hacyc x hxrem m hm

theorem kahnAux_total (E : List (String × String)) :
    ∀ (fuel : Nat) (rem : List String), rem.length = fuel → rem.Nodup →
      (∀ n ∈ rem, ∀ l, ¬ PathL E n l n) →
      ∃ order, kahnAux E fuel rem = some order := by
  intro fuel
  induction fuel with
  | zero =>
    intro rem hlen _ _
    rw [List.length_eq_zero] at hlen
    subst hlen
    exact ⟨[], rfl⟩
  | succ f ih =>
    intro rem hlen hnd hacyc
    have hne : rem ≠ [] := by
      intro h
      subst h
      simp at hlen
    obtain ⟨n', hn', hni⟩ := exists_no_incoming E rem hne hnd hacyc
    cases hf : rem.find? (fun n => noIncoming E rem n) with
    | none =>
      exact absurd hni (List.find?_eq_none.mp hf n' hn')
    | some n =>
      have hnmem : n ∈ rem := List.mem_of_find?_eq_some hf
      have herase_len : (rem.erase n).length = f := by
        rw [List.length_erase_of_mem hnmem, hlen]
        omega
      obtain ⟨ord, hord⟩ := ih (rem.erase n) herase_len (hnd.erase n)
        (fun m hm => hacyc m (List.mem_of_mem_erase hm))
      refine ⟨n :: ord, ?_⟩
      unfold kahnAux
      rw [hf]
      dsimp only
      rw [hord]
      rfl

/-- Edge endpoints always lie among the schema's table names. -/
theorem buildEdges_endpoints {tables : Schema} {e : String × String}
    (he : e ∈ buildEdges tables) :
    e.1 ∈ schemaKeys tables ∧ e.2 ∈ schemaKeys tables := by
  unfold buildEdges at he
  rw [List.mem_dedup, List.mem_flatMap] at he
  obtain ⟨ti, hti, hmem⟩ := he
  rw [List.mem_filterMap] at hmem
  obtain ⟨cf, _, heq⟩ := hmem
  split_ifs at heq with hcond
  · cases heq
    exact ⟨hcond.2, List.mem_map.mpr ⟨ti, hti, rfl⟩⟩

/-- Along any path, the topological order is strictly increasing. -/
theorem pathL_idx {E : List (String × String)} {order rem : List String}
    (hE : ∀ e ∈ E, e.1 ∈ rem ∧ e.2 ∈ rem)
    (hsort : ∀ a b, (a, b) ∈ E → a ∈ rem → b ∈ rem → idxOf order a < idxOf order b) :
    ∀ {a l b}, PathL E a l b → idxOf order a < idxOf order b := by
  intro a l b hp
  induction hp with
  | single h => exact hsort _ _ h (hE _ h).1 (hE _ h).2
  | cons h _ ih => exact lt_trans (hsort _ _ h (hE _ h).1 (hE _ h).2) ih

/-- C1: for a schema map (duplicate-free, nonempty table names) whose resolved
reference graph is acyclic, `get_insertion_order` returns a permutation of all
table names in which, for every foreign key of table `t` referencing a table
`r` present in the schema map, `r` occurs strictly before `t`. -/
theorem c1_insertion_order_topological (tables : Schema)
    (hnd : (schemaKeys tables).Nodup)
    (hne : "" ∉ schemaKeys tables)
    (hacyc : ∀ n ∈ schemaKeys tables, onCycleB (buildEdges tables) n = false) :
    ∃ order, getInsertionOrder tables = .ok order ∧ order.Perm (schemaKeys tables) ∧
      ∀ t info, (t, info) ∈ tables → ∀ c fk, (c, fk) ∈ info.foreign_keys →
        fk.ref_table ∈ schemaKeys tables →
        idxOf order fk.ref_table < idxOf order t := by
  have hacyc' : ∀ n ∈ schemaKeys tables, ∀ l, ¬ PathL (buildEdges tables) n l n := by
    intro n hn l hp
    have h := onCycleB_iff.mpr ⟨l, hp⟩
    rw [hacyc n hn] at h
    cases h
  obtain ⟨order, hord⟩ :=
    kahnAux_total (buildEdges tables) (schemaKeys tables).length (schemaKeys tables) rfl hnd hacyc'
  refine ⟨order, ?_, kahnAux_perm _ _ _ _ hord, ?_⟩
  · unfold getInsertionOrder
    dsimp only
    rw [hord]
  · intro t info hti c fk hcfk href
    have hrefne : ¬ (fk.ref_table = "") := by
      intro heq
      rw [heq] at href
      exact hne href
    have hedge : (fk.ref_table, t) ∈ buildEdges tables := by
      unfold buildEdges
      rw [List.mem_dedup, List.mem_flatMap]
      refine ⟨(t, info), hti, ?_⟩
      rw [List.mem_filterMap]
      exact ⟨(c, fk), hcfk, by rw [if_pos ⟨hrefne, href⟩]⟩
    exact kahnAux_sorts _ _ _ _ hord _ _ hedge href (List.mem_map.mpr ⟨(t, info), hti, rfl⟩)

/-- Witness for C1 on the concrete acyclic countries/cities schema. -/
theorem c1_witness_countries_cities :
    (schemaKeys (parseSqlSchema sqlCountriesCities)).Nodup ∧
    "" ∉ schemaKeys (parseSqlSchema sqlCountriesCities) ∧
    (∀ n ∈ schemaKeys (parseSqlSchema sqlCountriesCities),
        onCycleB (buildEdges (parseSqlSchema sqlCountriesCities)) n = false) ∧
    (∃ order, getInsertionOrder (parseSqlSchema sqlCountriesCities) = .ok order ∧
      order.Perm (schemaKeys (parseSqlSchema sqlCountriesCities)) ∧
      ∀ t info, (t, info) ∈ parseSqlSchema sqlCountriesCities →
        ∀ c fk, (c, fk) ∈ info.foreign_keys →
        fk.ref_table ∈ schemaKeys (parseSqlSchema sqlCountriesCities) →
        idxOf order fk.ref_table < idxOf order t) := by
  have h1 : (schemaKeys (parseSqlSchema sqlCountriesCities)).Nodup := by decide
  have h2 : "" ∉ schemaKeys (parseSqlSchema sqlCountriesCities) := by decide
  have h3 : ∀ n ∈ schemaKeys (parseSqlSchema sqlCountriesCities),
      onCycleB (buildEdges (parseSqlSchema sqlCountriesCities)) n = false := by decide
  exact ⟨h1, h2, h3, c1_insertion_order_topological _ h1 h2 h3⟩

/-- C7: for a schema map whose reference graph has a cycle,
`get_insertion_order` fails with a `CircularDependencyError` carrying the
sorted deduplicated list of exactly those tables that lie on some cycle. -/
theorem c7_cycle_error_carries_cycle_tables (tables : Schema)
    (hnd : (schemaKeys tables).Nodup)
    (hcyc : ∃ n ∈ schemaKeys tables, onCycleB (buildEdges tables) n = true) :
    (getInsertionOrder tables = .error (.ofTables (pySorted
        (((schemaKeys tables).filter (fun n => onCycleB (buildEdges tables) n)).dedup)))) ∧
    (∀ n, n ∈ ((schemaKeys tables).filter (fun n => onCycleB (buildEdges tables) n)).dedup ↔
        n ∈ schemaKeys tables ∧ ∃ l, PathL (buildEdges tables) n l n) := by
  constructor
  · unfold getInsertionOrder
    cases hk : kahnAux (buildEdges tables) (schemaKeys tables).length (schemaKeys tables) with
    | some order =>
      exfalso
      obtain ⟨n, hn, hcy⟩ := hcyc
      obtain ⟨l, hp⟩ := reachesB_sound hcy
      exact absurd (pathL_idx (fun e he => buildEdges_endpoints he)
        (kahnAux_sorts _ _ _ _ hk) hp) (lt_irrefl _)
    | none =>
      dsimp only
      rw [hk]
      have hinvne :
          ¬ ((((schemaKeys tables).filter
              (fun n => onCycleB (buildEdges tables) n)).dedup).isEmpty = true) := by
        obtain ⟨n, hn, hcy⟩ := hcyc
        intro hemp
        rw [List.isEmpty_iff] at hemp
        have : n ∈ ((schemaKeys tables).filter
            (fun n => onCycleB (buildEdges tables) n)).dedup := by
          rw [List.mem_dedup, List.mem_filter]
          exact ⟨hn, hcy⟩
        rw [hemp] at this
        cases this
      dsimp only
      rw [if_neg hinvne]
  · intro n
    rw [List.mem_dedup, List.mem_filter]
    exact and_congr_right fun _ => onCycleB_iff

/-- Witness for C7: the two-table mutual-reference schema raises
`CircularDependencyError` carrying exactly `["A", "B"]`. -/
theorem c7_witness_mutual_reference :
    (schemaKeys (parseSqlSchema sqlMutualRef)).Nodup ∧
    (∃ n ∈ schemaKeys (parseSqlSchema sqlMutualRef),
        onCycleB (buildEdges (parseSqlSchema sqlMutualRef)) n = true) ∧
    getInsertionOrder (parseSqlSchema sqlMutualRef) =
      .error ⟨["A", "B"], "Circular dependency detected involving tables: A, B"⟩ := by
  have h1 : (schemaKeys (parseSqlSchema sqlMutualRef)).Nodup := by decide
  have h2 : ∃ n ∈ schemaKeys (parseSqlSchema sqlMutualRef),
      onCycleB (buildEdges (parseSqlSchema sqlMutualRef)) n = true := by decide
  refine ⟨h1, h2, ?_⟩
  exact ((c7_cycle_error_carries_cycle_tables _ h1 h2).1).trans (by decide)

/-! ### Generator lemmas -/

theorem generateValue_pk_int (name ty : String) (i : Nat) (gs : GState)
    (h : intFamily.contains (baseTypeOf ty) = true) :
    generateValue name ty true i gs = (Value.int ((i : Int) + 1), gs) := by
  unfold generateValue primaryKeyGenerate
  rw [if_pos rfl]
  rw [if_neg (by decide)]
  dsimp only
  rw [if_pos h]

theorem genCols_pk_lookup {pk ty : String} {fkKeys : List String} (i : Nat)
    (hfk : fkKeys.contains pk = false)
    (hint : intFamily.contains (baseTypeOf ty) = true) :
    ∀ (cols : List (String × String)), (cols.map Prod.fst).Nodup → (pk, ty) ∈ cols →
      ∀ gs, alookup (genCols (some pk) fkKeys cols i gs).1 pk =
        some (Value.int ((i : Int) + 1)) := by
  intro cols
  induction cols with
  | nil => intro _ hmem; cases hmem
  | cons hd tl ih =>
    intro hnd hmem gs
    obtain ⟨c, ty₀⟩ := hd
    rcases List.mem_cons.mp hmem with heq | hmem'
    · rw [Prod.mk.injEq] at heq
      obtain ⟨h1, h2⟩ := heq
      subst h1
      subst h2
      simp only [genCols, hfk, Bool.false_eq_true, if_false]
      have hbeq : (some pk == some pk) = true := by simp
      rw [hbeq, generateValue_pk_int _ _ _ _ hint]
      simp [alookup]
    · have hcpk : c ≠ pk := by
        intro hE
        subst hE
        exact (List.nodup_cons.mp hnd).1 (List.mem_map.mpr ⟨(c, ty), hmem', rfl⟩)
      by_cases hcf : fkKeys.contains c = true
      · simp only [genCols, hcf, if_true]
        exact ih (List.nodup_cons.mp hnd).2 hmem' gs
      · rw [Bool.not_eq_true] at hcf
        simp only [genCols, hcf, Bool.false_eq_true, if_false]
        rcases hg : genCols (some pk) fkKeys tl i
            (generateValue c ty₀ (some pk == some c) i gs).2 with ⟨base, gs₂⟩
        dsimp only
        rw [alookup, if_neg hcpk]
        have := ih (List.nodup_cons.mp hnd).2 hmem' (generateValue c ty₀ (some pk == some c) i gs).2
        rw [hg] at this
        exact this

theorem buildRecord_pk_lookup {pk ty : String} {info : TableInfo} (cfg : GeneratorConfig)
    (pools : List (String × List Value)) (i : Nat) (gs : GState)
    (hpk : info.primary_key = some pk)
    (hty : (pk, ty) ∈ info.columns)
    (hint : intFamily.contains (baseTypeOf ty) = true)
    (hnotfk : (info.foreign_keys.map Prod.fst).contains pk = false)
    (hnd : (info.columns.map Prod.fst).Nodup) :
    alookup (buildRecord cfg info pools i gs).1 pk = some (Value.int ((i : Int) + 1)) := by
  unfold buildRecord
  dsimp only
  rcases hg : genCols info.primary_key (info.foreign_keys.map Prod.fst) info.columns i gs
    with ⟨base, gs₁⟩
  dsimp only
  have hbase := genCols_pk_lookup i hnotfk hint info.columns hnd hty gs
  rw [hpk] at hg
  rw [hg] at hbase
  dsimp only at hbase
  exact alookup_append_some hbase

theorem genRecords_length (cfg : GeneratorConfig) (info : TableInfo)
    (pools : List (String × List Value)) :
    ∀ (n i : Nat) (gs : GState), ((genRecords cfg info pools n i gs).1).length = n := by
  intro n
  induction n with
  | zero => intro i gs; rfl
  | succ n ih =>
    intro i gs
    simp only [genRecords]
    rcases hb : buildRecord cfg info pools i gs with ⟨r, gs₁⟩
    rcases hr : genRecords cfg info pools n (i + 1) gs₁ with ⟨rs, gs₂⟩
    dsimp only
    have := ih (i + 1) gs₁
    rw [hr] at this
    simp [this]

theorem genRecords_pk_map {pk ty : String} {info : TableInfo} (cfg : GeneratorConfig)
    (pools : List (String × List Value))
    (hpk : info.primary_key = some pk)
    (hty : (pk, ty) ∈ info.columns)
    (hint : intFamily.contains (baseTypeOf ty) = true)
    (hnotfk : (info.foreign_keys.map Prod.fst).contains pk = false)
    (hnd : (info.columns.map Prod.fst).Nodup) :
    ∀ (n i : Nat) (gs : GState),
      ((genRecords cfg info pools n i gs).1).map (fun r => alookup r pk) =
        (List.range' (i + 1) n).map (fun j => some (Value.int (Int.ofNat j))) := by
  intro n
  induction n with
  | zero => intro i gs; rfl
  | succ n ih =>
    intro i gs
    simp only [genRecords]
    rcases hb : buildRecord cfg info pools i gs with ⟨r, gs₁⟩
    rcases hr : genRecords cfg info pools n (i + 1) gs₁ with ⟨rs, gs₂⟩
    dsimp only
    rw [List.range'_succ, List.map_cons, List.map_cons]
    have hhead := buildRecord_pk_lookup cfg pools i gs hpk hty hint hnotfk hnd
    rw [hb] at hhead
    dsimp only at hhead
    have htail := ih (i + 1) gs₁
    rw [hr] at htail
    rw [hhead, htail]
    norm_num

theorem genLoop_table_source (cfg : GeneratorConfig) (schema : Schema) (k : Nat) :
    ∀ (order : List String) (data : List (String × List Record))
      (pools : List (String × List Value)) (gs : GState)
      (out : List (String × List Record) × GState),
      genLoop cfg schema k order data pools gs = .ok out →
      ∀ T recs, (T, recs) ∈ out.1 →
        (T, recs) ∈ data ∨ ∃ info pools' gs', alookup schema T = some info ∧
          recs = (generateTableRecords cfg info k pools' gs').1 := by
  intro order
  induction order with
  | nil =>
    intro data pools gs out h T recs hmem
    unfold genLoop at h
    cases h
    exact Or.inl hmem
  | cons t rest ih =>
    intro data pools gs out h T recs hmem
    unfold genLoop at h
    cases hlook : alookup schema t with
    | none => rw [hlook] at h; cases h
    | some info =>
      rw [hlook] at h
      dsimp only at h
      rcases hg : generateTableRecords cfg info k pools gs with ⟨recst, gs₁⟩
      rw [hg] at h
      dsimp only at h
      have hfromstep : (T, recs) ∈ data ++ [(t, recst)] →
          (T, recs) ∈ data ∨ ∃ info' pools' gs', alookup schema T = some info' ∧
            recs = (generateTableRecords cfg info' k pools' gs').1 := by
        intro hmem'
        rcases List.mem_append.mp hmem' with h' | h'
        · exact Or.inl h'
        · simp only [List.mem_singleton, Prod.mk.injEq] at h'
          obtain ⟨hT, hR⟩ := h'
          subst hT
          refine Or.inr ⟨info, pools, gs, hlook, ?_⟩
          rw [hg, hR]
      cases hpk : info.primary_key with
      | none =>
        rw [hpk] at h
        rcases ih _ _ _ _ h T recs hmem with h' | h'
        · exact hfromstep h'
        · exact Or.inr h'
      | some p =>
        rw [hpk] at h
        dsimp only at h
        cases hmapM : recst.mapM (fun r => alookup r p) with
        | none => rw [hmapM] at h; cases h
        | some vals =>
          rw [hmapM] at h
          rcases ih _ _ _ _ h T recs hmem with h' | h'
          · exact hfromstep h'
          · exact Or.inr h'

/-- C8 (amended): whenever the dataset contains a table whose primary-key
column has an integer-family type and is not itself a foreign-key column, its
primary-key values are exactly `[1, …, k]` in record order; and the
primary-key rule of `generate_value` returns `recordIndex + 1` for every
integer-family type, independent of the generator state. -/
theorem c8_integer_pk_sequential_amended (cfg : GeneratorConfig) (sql : String) (k : Nat)
    (gs : GState) (out : List (String × List Record) × GState) (T : String)
    (recs : List Record) (info : TableInfo) (p ty : String)
    (hok : DataGenerator.generate cfg sql k gs = .ok out)
    (hT : (T, recs) ∈ out.1)
    (hinfo : alookup (parseSqlSchema sql) T = some info)
    (hp : info.primary_key = some p)
    (hty : (p, ty) ∈ info.columns)
    (hint : intFamily.contains (baseTypeOf ty) = true)
    (hnotfk : (info.foreign_keys.map Prod.fst).contains p = false) :
    recs.length = k ∧
    recs.map (fun r => alookup r p) =
      (List.range' 1 k).map (fun j => some (Value.int (Int.ofNat j))) ∧
    (∀ (name ty₂ : String) (i : Nat) (st : GState),
        intFamily.contains (baseTypeOf ty₂) = true →
        generateValue name ty₂ true i st = (Value.int ((i : Int) + 1), st)) := by
  unfold DataGenerator.generate at hok
  dsimp only at hok
  split_ifs at hok with hempty
  cases hord : getInsertionOrder (parseSqlSchema sql) with
  | error e => rw [hord] at hok; cases hok
  | ok order =>
    rw [hord] at hok
    dsimp only at hok
    rcases genLoop_table_source cfg (parseSqlSchema sql) k order [] [] gs out hok T recs hT
      with h | ⟨info', pools', gs', hinfo', hrecs⟩
    · cases h
    · rw [hinfo] at hinfo'
      injection hinfo' with he
      subst he
      have hnd : (info.columns.map Prod.fst).Nodup :=
        ((parseSqlSchema_wf sql).2 (T, info) (alookup_mem hinfo)).1
    
      subst hrecs
      refine ⟨genRecords_length cfg info pools' k 0 gs', ?_,
        fun name ty₂ i st h => generateValue_pk_int name ty₂ i st h⟩
      have := genRecords_pk_map cfg pools' hp hty hint hnotfk hnd k 0 gs'
      simpa using this

/-- Witness for the amended C8 on a concrete single-table schema with two records. -/
theorem c8_amended_witness :
    ([[("id", Value.int 1), ("name", Value.fake "name" 0)],
      [("id", Value.int 2), ("name", Value.fake "name" 0)]] : List Record).length = 2 ∧
    ([[("id", Value.int 1), ("name", Value.fake "name" 0)],
      [("id", Value.int 2), ("name", Value.fake "name" 0)]] : List Record).map
        (fun r => alookup r "id") =
      (List.range' 1 2).map (fun j => some (Value.int (Int.ofNat j))) ∧
    (∀ (name ty₂ : String) (i : Nat) (st : GState),
        intFamily.contains (baseTypeOf ty₂) = true →
        generateValue name ty₂ true i st = (Value.int ((i : Int) + 1), st)) := by
  exact c8_integer_pk_sequential_amended cfgSeeded sqlSingleTable 2 ⟨[], []⟩
    ⟨[("t", [[("id", Value.int 1), ("name", Value.fake "name" 0)],
             [("id", Value.int 2), ("name", Value.fake "name" 0)]])], ⟨[], []⟩⟩
    "t"
    [[("id", Value.int 1), ("name", Value.fake "name" 0)],
     [("id", Value.int 2), ("name", Value.fake "name" 0)]]
    ⟨[("id", "INT"), ("name", "VARCHAR(50)")], some "id", []⟩ "id" "INT"
    (by decide) (by decide) (by decide) (by decide) (by decide) (by decide) (by decide)

/-! ### Foreign-key cell lemmas -/

theorem fkValue_ok (p : Rat) (pools : List (String × List Value)) (fk : FKInfo) (gs : GState) :
    fkCellOk pools fk (fkValue p pools fk gs).1 := by
  unfold fkValue
  cases hl : alookup pools fk.ref_table with
  | none => exact Or.inr ⟨Or.inl hl, rfl⟩
  | some pool =>
    dsimp only
    by_cases hpe : pool.isEmpty = true
    · rw [if_pos hpe]
      have hnil : pool = [] := List.isEmpty_iff.mp hpe
      exact Or.inr ⟨Or.inr (by rw [hl, hnil]), rfl⟩
    · rw [if_neg hpe]
      have hne : pool ≠ [] := by
        intro hh
        exact hpe (by rw [hh]; rfl)
      rcases hrf : randomFloat gs with ⟨q, gsa⟩
      dsimp only
      by_cases hq : q < p
      · rw [if_pos hq]
        exact Or.inl ⟨pool, hl, hne, Or.inl rfl⟩
      · rw [if_neg hq]
        unfold randomChoice
        rcases hrd : randDraw gsa with ⟨n, gsb⟩
        dsimp only
        refine Or.inl ⟨pool, hl, hne, Or.inr ?_⟩
        have hlen : 0 < pool.length := List.length_pos.mpr hne
        have hidx : n % pool.length < pool.length := Nat.mod_lt _ hlen
        rw [List.getD_eq_getElem?_getD, List.getElem?_eq_getElem hidx]
        exact List.getElem_mem _

theorem fkCellOk_mono {pools pools₂ : List (String × List Value)} {fk : FKInfo} {v : Value}
    (hmono : ∀ R pool, alookup pools R = some pool → alookup pools₂ R = some pool)
    (h : fkCellOk pools fk v) : fkCellOk pools₂ fk v := by
  rcases h with ⟨pool, hl, hne, hv⟩ | ⟨hcase, hv⟩
  · exact Or.inl ⟨pool, hmono _ _ hl, hne, hv⟩
  · subst hv
    cases hl₂ : alookup pools₂ fk.ref_table with
    | none => exact Or.inr ⟨Or.inl hl₂, rfl⟩
    | some pool₂ =>
      cases pool₂ with
      | nil => exact Or.inr ⟨Or.inr hl₂, rfl⟩
      | cons x xs => exact Or.inl ⟨x :: xs, hl₂, by simp, Or.inl rfl⟩

theorem genCols_skips_fk {c : String} {fkKeys : List String} (pk : Option String) (i : Nat)
    (hc : fkKeys.contains c = true) :
    ∀ (cols : List (String × String)) (gs : GState),
      alookup (genCols pk fkKeys cols i gs).1 c = none := by
  intro cols
  induction cols with
  | nil => intro gs; rfl
  | cons hd tl ih =>
    intro gs
    obtain ⟨c₀, ty₀⟩ := hd
    by_cases h₀ : fkKeys.contains c₀ = true
    · simp only [genCols, h₀, if_true]
      exact ih gs
    · rw [Bool.not_eq_true] at h₀
      simp only [genCols, h₀, Bool.false_eq_true, if_false]
      rcases hg : genCols pk fkKeys tl i (generateValue c₀ ty₀ (pk == some c₀) i gs).2
        with ⟨r, g2⟩
      dsimp only
      have hne : c₀ ≠ c := by
        intro hE
        subst hE
        rw [hc] at h₀
        cases h₀
      rw [alookup, if_neg hne]
      have := ih (generateValue c₀ ty₀ (pk == some c₀) i gs).2
      rw [hg] at this
      exact this

theorem genFks_cell (p : Rat) (pools : List (String × List Value)) :
    ∀ (fks : List (String × FKInfo)), (fks.map Prod.fst).Nodup →
      ∀ (c : String) (fk : FKInfo), (c, fk) ∈ fks → ∀ gs,
        ∃ v, alookup (genFks p fks pools gs).1 c = some v ∧ fkCellOk pools fk v := by
  intro fks
  induction fks with
  | nil => intro _ c fk hmem; cases hmem
  | cons hd tl ih =>
    intro hnd c fk hmem gs
    obtain ⟨c₀, fk₀⟩ := hd
    simp only [genFks]
    rcases hv : fkValue p pools fk₀ gs with ⟨v₀, gs₁⟩
    dsimp only
    rcases hrest : genFks p tl pools gs₁ with ⟨r, gs₂⟩
    dsimp only
    rcases List.mem_cons.mp hmem with heq | hmem'
    · rw [Prod.mk.injEq] at heq
      obtain ⟨h1, h2⟩ := heq
      subst h1
      subst h2
      refine ⟨v₀, by simp [alookup], ?_⟩
      have := fkValue_ok p pools fk gs
      rw [hv] at this
      exact this
    · have hne : c₀ ≠ c := by
        intro hE
        subst hE
        exact (List.nodup_cons.mp hnd).1 (List.mem_map.mpr ⟨(c₀, fk), hmem', rfl⟩)
      obtain ⟨v, hvl, hcell⟩ := ih (List.nodup_cons.mp hnd).2 c fk hmem' gs₁
      rw [hrest] at hvl
      exact ⟨v, by rw [alookup, if_neg hne]; exact hvl, hcell⟩

theorem buildRecord_fk_cell (cfg : GeneratorConfig) (info : TableInfo)
    (pools : List (String × List Value)) (i : Nat) (gs : GState)
    (hnd : (info.foreign_keys.map Prod.fst).Nodup)
    {c : String} {fk : FKInfo} (hmem : (c, fk) ∈ info.foreign_keys) :
    ∃ v, alookup (buildRecord cfg info pools i gs).1 c = some v ∧ fkCellOk pools fk v := by
  unfold buildRecord
  dsimp only
  rcases hg : genCols info.primary_key (info.foreign_keys.map Prod.fst) info.columns i gs
    with ⟨base, gs₁⟩
  dsimp only
  rcases hf : genFks cfg.nullable_fk_probability info.foreign_keys pools gs₁ with ⟨fkPart, gs₂⟩
  dsimp only
  have hcont : (info.foreign_keys.map Prod.fst).contains c = true :=
    List.elem_iff.mpr (List.mem_map.mpr ⟨(c, fk), hmem, rfl⟩)
  have hskip := genCols_skips_fk info.primary_key i hcont info.columns gs
  rw [hg] at hskip
  obtain ⟨v, hvl, hcell⟩ :=
    genFks_cell cfg.nullable_fk_probability pools info.foreign_keys hnd c fk hmem gs₁
  rw [hf] at hvl
  exact ⟨v, by rw [alookup_append_none hskip]; exact hvl, hcell⟩

theorem genRecords_fk_cell (cfg : GeneratorConfig) (info : TableInfo)
    (pools : List (String × List Value))
    (hnd : (info.foreign_keys.map Prod.fst).Nodup)
    {c : String} {fk : FKInfo} (hmem : (c, fk) ∈ info.foreign_keys) :
    ∀ (n i : Nat) (gs : GState) (r : Record), r ∈ (genRecords cfg info pools n i gs).1 →
      ∃ v, alookup r c = some v ∧ fkCellOk pools fk v := by
  intro n
  induction n with
  | zero => intro i gs r hr; cases hr
  | succ n ih =>
    intro i gs r hr
    simp only [genRecords] at hr
    rcases hb : buildRecord cfg info pools i gs with ⟨r₀, gs₁⟩
    rw [hb] at hr
    rcases hrec : genRecords cfg info pools n (i + 1) gs₁ with ⟨rs, gs₂⟩
    rw [hrec] at hr
    dsimp only at hr
    rcases List.mem_cons.mp hr with h | h
    · subst h
      have := buildRecord_fk_cell cfg info pools i gs hnd hmem
      rw [hb] at this
      exact this
    · exact ih (i + 1) gs₁ r (by rw [hrec]; exact h)

/-! ### Pool bookkeeping lemmas -/

theorem poolsFromData_append (schema : Schema) (data l₂ : List (String × List Record)) :
    poolsFromData schema (data ++ l₂) =
      poolsFromData schema data ++ poolsFromData schema l₂ :=
  List.filterMap_append _ _ _

theorem poolsFromData_singleton_none (schema : Schema) (t : String) (recst : List Record)
    (info : TableInfo) (hlook : alookup schema t = some info)
    (hpk : info.primary_key = none) :
    poolsFromData schema [(t, recst)] = [] := by
  simp [poolsFromData, hlook, hpk]

theorem poolsFromData_singleton_some (schema : Schema) (t : String) (recst : List Record)
    (info : TableInfo) (p : String) (vals : List Value)
    (hlook : alookup schema t = some info) (hpk : info.primary_key = some p)
    (hmapM : recst.mapM (fun r => alookup r p) = some vals) :
    poolsFromData schema [(t, recst)] = [(t, vals)] := by
  have hloop : List.mapM.loop (fun r => alookup r p) recst [] = some vals := hmapM
  simp [poolsFromData, hlook, hpk, hloop]

theorem genLoop_fk_invariant (cfg : GeneratorConfig) (schema : Schema) (k : Nat)
    (hWF : ∀ T info, alookup schema T = some info → (info.foreign_keys.map Prod.fst).Nodup) :
    ∀ (order : List String) (data : List (String × List Record))
      (pools : List (String × List Value)) (gs : GState)
      (out : List (String × List Record) × GState),
      genLoop cfg schema k order data pools gs = .ok out →
      pools = poolsFromData schema data →
      (∀ T recs, (T, recs) ∈ data → ∀ r, r ∈ recs → ∀ c fk info,
          alookup schema T = some info → (c, fk) ∈ info.foreign_keys →
          ∃ v, alookup r c = some v ∧ fkCellOk pools fk v) →
      (∀ R pool, alookup pools R = some pool →
          alookup (poolsFromData schema out.1) R = some pool) ∧
      (∀ T recs, (T, recs) ∈ out.1 → ∀ r, r ∈ recs → ∀ c fk info,
          alookup schema T = some info → (c, fk) ∈ info.foreign_keys →
          ∃ v, alookup r c = some v ∧ fkCellOk (poolsFromData schema out.1) fk v) := by
  intro order
  induction order with
  | nil =>
    intro data pools gs out h hpools hdata
    unfold genLoop at h
    cases h
    constructor
    · intro R pool hh
      dsimp only
      rw [← hpools]
      exact hh
    · intro T recs hm r hr c fk info hl hc
      dsimp only at hm
      have := hdata T recs hm r hr c fk info hl hc
      dsimp only
      rw [← hpools]
      exact this
  | cons t rest ih =>
    intro data pools gs out h hpools hdata
    unfold genLoop at h
    cases hlook : alookup schema t with
    | none => rw [hlook] at h; cases h
    | some info =>
      rw [hlook] at h
      dsimp only at h
      rcases hg : generateTableRecords cfg info k pools gs with ⟨recst, gs₁⟩
      rw [hg] at h
      dsimp only at h
      have hndfk := hWF t info hlook
      have hg' : genRecords cfg info pools k 0 gs = (recst, gs₁) := hg
      have hrecst : ∀ r, r ∈ recst → ∀ c fk, (c, fk) ∈ info.foreign_keys →
          ∃ v, alookup r c = some v ∧ fkCellOk pools fk v := by
        intro r hr c fk hcfk
        refine genRecords_fk_cell cfg info pools hndfk hcfk k 0 gs r ?_
        rw [hg']
        exact hr
      cases hpk : info.primary_key with
      | none =>
        rw [hpk] at h
        dsimp only at h
        have hpools' : pools = poolsFromData schema (data ++ [(t, recst)]) := by
          rw [poolsFromData_append, poolsFromData_singleton_none schema t recst info hlook hpk,
            List.append_nil, hpools]
        have hdata' : ∀ T recs, (T, recs) ∈ data ++ [(t, recst)] → ∀ r, r ∈ recs →
            ∀ c fk info', alookup schema T = some info' → (c, fk) ∈ info'.foreign_keys →
            ∃ v, alookup r c = some v ∧ fkCellOk pools fk v := by
          intro T recs hmem r hr c fk info' hlook' hcfk
          rcases List.mem_append.mp hmem with hm | hm
          · exact hdata T recs hm r hr c fk info' hlook' hcfk
          · simp only [List.mem_singleton, Prod.mk.injEq] at hm
            obtain ⟨hT, hR⟩ := hm
            subst hT
            subst hR
            rw [hlook] at hlook'
            injection hlook' with he
            subst he
            exact hrecst r hr c fk hcfk
        exact ih _ _ _ _ h hpools' hdata'
      | some p =>
        rw [hpk] at h
        dsimp only at h
        cases hmapM : recst.mapM (fun r => alookup r p) with
        | none => rw [hmapM] at h; cases h
        | some vals =>
          rw [hmapM] at h
          have hmono1 : ∀ R pool, alookup pools R = some pool →
              alookup (pools ++ [(t, vals)]) R = some pool :=
            fun R pool hh => alookup_append_some hh
          have hpools' : pools ++ [(t, vals)] = poolsFromData schema (data ++ [(t, recst)]) := by
            rw [poolsFromData_append,
              poolsFromData_singleton_some schema t recst info p vals hlook hpk hmapM, hpools]
          have hdata' : ∀ T recs, (T, recs) ∈ data ++ [(t, recst)] → ∀ r, r ∈ recs →
              ∀ c fk info', alookup schema T = some info' → (c, fk) ∈ info'.foreign_keys →
              ∃ v, alookup r c = some v ∧ fkCellOk (pools ++ [(t, vals)]) fk v := by
            intro T recs hmem r hr c fk info' hlook' hcfk
            rcases List.mem_append.mp hmem with hm | hm
            · obtain ⟨v, hv, hcell⟩ := hdata T recs hm r hr c fk info' hlook' hcfk
              exact ⟨v, hv, fkCellOk_mono hmono1 hcell⟩
            · simp only [List.mem_singleton, Prod.mk.injEq] at hm
              obtain ⟨hT, hR⟩ := hm
              subst hT
              subst hR
              rw [hlook] at hlook'
              injection hlook' with he
              subst he
              obtain ⟨v, hv, hcell⟩ := hrecst r hr c fk hcfk
              exact ⟨v, hv, fkCellOk_mono hmono1 hcell⟩
          obtain ⟨hmonoF, hpropF⟩ := ih _ _ _ _ h hpools' hdata'
          exact ⟨fun R pool hh => hmonoF R pool (hmono1 R pool hh), hpropF⟩

/-- C2: in any dataset returned by `DataGenerator.generate`, every foreign-key
cell holds either null or a member of the referenced table's generated
primary-key pool (the values of its primary-key column across its records);
when the referenced table has no pool or an empty pool, the cell is null
regardless of the nullable-foreign-key probability. -/
theorem c2_foreign_keys_reference_pools (cfg : GeneratorConfig) (sql : String) (k : Nat)
    (gs : GState) (out : List (String × List Record) × GState) (T : String)
    (recs : List Record) (r : Record) (c : String) (fk : FKInfo) (info : TableInfo)
    (hok : DataGenerator.generate cfg sql k gs = .ok out)
    (hT : (T, recs) ∈ out.1)
    (hr : r ∈ recs)
    (hinfo : alookup (parseSqlSchema sql) T = some info)
    (hcfk : (c, fk) ∈ info.foreign_keys) :
    ∃ v, alookup r c = some v ∧
      (v = Value.null ∨ ∃ pool,
        alookup (poolsFromData (parseSqlSchema sql) out.1) fk.ref_table = some pool ∧
        v ∈ pool) ∧
      ((alookup (poolsFromData (parseSqlSchema sql) out.1) fk.ref_table = none ∨
        alookup (poolsFromData (parseSqlSchema sql) out.1) fk.ref_table = some []) →
        v = Value.null) := by
  unfold DataGenerator.generate at hok
  dsimp only at hok
  split_ifs at hok with hempty
  cases hord : getInsertionOrder (parseSqlSchema sql) with
  | error e => rw [hord] at hok; cases hok
  | ok order =>
    rw [hord] at hok
    dsimp only at hok
    have hWF : ∀ T₀ info₀, alookup (parseSqlSchema sql) T₀ = some info₀ →
        (info₀.foreign_keys.map Prod.fst).Nodup :=
      fun T₀ info₀ hl => ((parseSqlSchema_wf sql).2 (T₀, info₀) (alookup_mem hl)).2
    obtain ⟨-, hprop⟩ := genLoop_fk_invariant cfg (parseSqlSchema sql) k hWF order [] [] gs out
      hok rfl (by intro T₀ recs₀ hm; cases hm)
    obtain ⟨v, hv, hcell⟩ := hprop T recs hT r hr c fk info hinfo hcfk
    refine ⟨v, hv, ?_, ?_⟩
    · rcases hcell with ⟨pool, hl, _, hvv⟩ | ⟨_, hv0⟩
      · rcases hvv with hvv | hvv
        · exact Or.inl hvv
        · exact Or.inr ⟨pool, hl, hvv⟩
      · exact Or.inl hv0
    · intro habs
      rcases hcell with ⟨pool, hl, hne, _⟩ | ⟨_, hv0⟩
      · rcases habs with habs | habs
        · rw [hl] at habs
          cases habs
        · rw [hl] at habs
          injection habs with he
          exact absurd he hne
      · exact hv0

/-- Witness for C2 on a concrete run with the two-table schema. -/
theorem c2_witness_two_tables :
    ∃ v, alookup [("id", Value.int 1), ("x", Value.int 1)] "x" = some v ∧
      (v = Value.null ∨ ∃ pool,
        alookup (poolsFromData (parseSqlSchema sqlTwoTablesFk)
          [("b", [[("id", Value.int 1)]]), ("a", [[("id", Value.int 1), ("x", Value.int 1)]])])
          (FKInfo.mk "b" "id").ref_table = some pool ∧ v ∈ pool) ∧
      ((alookup (poolsFromData (parseSqlSchema sqlTwoTablesFk)
          [("b", [[("id", Value.int 1)]]), ("a", [[("id", Value.int 1), ("x", Value.int 1)]])])
          (FKInfo.mk "b" "id").ref_table = none ∨
        alookup (poolsFromData (parseSqlSchema sqlTwoTablesFk)
          [("b", [[("id", Value.int 1)]]), ("a", [[("id", Value.int 1), ("x", Value.int 1)]])])
          (FKInfo.mk "b" "id").ref_table = some []) → v = Value.null) := by
  exact c2_foreign_keys_reference_pools cfgSeeded sqlTwoTablesFk 1 ⟨[2 ^ 52, 0], []⟩
    ⟨[("b", [[("id", Value.int 1)]]), ("a", [[("id", Value.int 1), ("x", Value.int 1)]])],
      ⟨[], []⟩⟩
    "a" [[("id", Value.int 1), ("x", Value.int 1)]] [("id", Value.int 1), ("x", Value.int 1)]
    "x" (FKInfo.mk "b" "id")
    ⟨[("id", "INT"), ("x", "INT")], some "id", [("x", FKInfo.mk "b" "id")]⟩
    (by decide) (by decide) (by decide) (by decide) (by decide)
